import Mathlib

/-!
Verification development for the mcp-sentry repository.

The file shallowly embeds the core logic of the repository:
the identifier normalizer (`extractIssueId`), the query-URL normalizer
(`extractIssuesApiUrl`), the stacktrace formatter (`createStacktrace`),
the issue-list aggregator (`findMostTriggeredIssue`) and the two request
orchestrators (`handleSentryIssue`, `handleSentryIssuesList`).

JavaScript strings are modelled as Lean `String`s, JSON payloads as
structures, thrown exceptions as `Except String`, and the external HTTP
client as an oracle function passed to the orchestrators.
-/

set_option maxRecDepth 8000

namespace McpSentry

/-! ## Model of `SentryIssueListItem` (src/types.ts)

`userCount` and `count` are produced by `parseInt(...) || 0` in core.ts and
can in principle be negative, so they are modelled as `Int`. -/

structure SentryIssueListItem where
  id : String
  title : String
  issueType : String
  level : String
  userCount : Int
  lastSeen : String
  count : Int
deriving Repr, DecidableEq

/-- Model of `SentryIssuesListData.findMostTriggeredIssue` (src/types.ts).
The JavaScript `reduce` is called with initial value `this.issues[0]`, so the
fold runs over the whole list starting from the first element.  The
`!this.issues` null-guard cannot fire in the embedding because the list is
always a value. -/
def findMostTriggeredIssue (issues : List SentryIssueListItem) :
    Option SentryIssueListItem :=
  match issues with
  | [] => none
  | first :: _ =>
    some (issues.foldl
      (fun max current =>
        if current.userCount > max.userCount then current else max)
      first)

/-- Spec-side description of the aggregation contract: the FIRST item in input
order whose affected-user count is greater than or equal to that of every item
in the list, i.e. the first item attaining the maximum `userCount`. -/
def firstWithMaxUserCount (issues : List SentryIssueListItem) :
    Option SentryIssueListItem :=
  issues.find? (fun x =>
    issues.all (fun y => decide (y.userCount ≤ x.userCount)))

/-! ### Lemmas about the fold -/

/-- The fold keeps its accumulator when nothing in the list strictly beats it. -/
theorem foldl_max_of_all_le
    (t : List SentryIssueListItem) :
    ∀ a : SentryIssueListItem, (∀ y ∈ t, y.userCount ≤ a.userCount) →
    t.foldl (fun max current =>
      if current.userCount > max.userCount then current else max) a = a := by
  induction t with
  | nil => intro a _; rfl
  | cons y ys ih =>
    intro a h
    have hy : y.userCount ≤ a.userCount := h y (List.mem_cons_self y ys)
    have : ¬ (y.userCount > a.userCount) := not_lt.mpr hy
    simp only [List.foldl_cons, if_neg this]
    exact ih a (fun z hz => h z (List.mem_cons_of_mem y hz))

/-- A small congruence lemma for `List.find?`. -/
theorem find?_congr_pred {α : Type} (l : List α) (p q : α → Bool)
    (h : ∀ x ∈ l, p x = q x) : l.find? p = l.find? q := by
  induction l with
  | nil => rfl
  | cons x xs ih =>
    simp only [List.find?]
    rw [h x (List.mem_cons_self x xs)]
    cases hq : q x with
    | true => rfl
    | false => exact ih (fun z hz => h z (List.mem_cons_of_mem x hz))

/-- When something in the list strictly beats the accumulator, the fold finds
the first element of the list attaining the maximum of the list. -/
theorem foldl_max_eq_find_of_exists_gt
    (t : List SentryIssueListItem) :
    ∀ a : SentryIssueListItem, (∃ y ∈ t, a.userCount < y.userCount) →
    t.find? (fun x => t.all (fun y => decide (y.userCount ≤ x.userCount)))
      = some (t.foldl (fun max current =>
          if current.userCount > max.userCount then current else max) a) := by
  induction t with
  | nil =>
    intro a h
    rcases h with ⟨y, hy, _⟩
    exact absurd hy (List.not_mem_nil y)
  | cons y ys ih =>
    intro a _h
    by_cases hya : y.userCount > a.userCount
    · -- the accumulator becomes y
      simp only [List.foldl_cons, if_pos hya]
      by_cases hmax : ∀ z ∈ ys, z.userCount ≤ y.userCount
      · -- y attains the maximum of y :: ys
        rw [foldl_max_of_all_le ys y hmax]
        have hp : ((y :: ys).all
            (fun z => decide (z.userCount ≤ y.userCount))) = true := by
          simp only [List.all_eq_true, decide_eq_true_iff]
          intro z hz
          rcases List.mem_cons.mp hz with hz | hz
          · exact le_of_eq (congrArg SentryIssueListItem.userCount hz)
          · exact hmax z hz
        simp only [List.find?, hp]
      · -- something in ys strictly beats y
        push_neg at hmax
        rcases hmax with ⟨z, hz, hzy⟩
        have hyfail : ((y :: ys).all
            (fun w => decide (w.userCount ≤ y.userCount))) = false := by
          apply Bool.eq_false_iff.mpr
          intro hcontra
          have := of_decide_eq_true
            (List.all_eq_true.mp hcontra z (List.mem_cons_of_mem y hz))
          exact absurd hzy (not_lt.mpr this)
        simp only [List.find?, hyfail]
        have := ih y ⟨z, hz, hzy⟩
        rw [← this]
        apply find?_congr_pred
        intro x hx
        cases hall : ys.all (fun w => decide (w.userCount ≤ x.userCount)) with
        | true =>
          have hyx : y.userCount ≤ x.userCount := by
            have hzx : z.userCount ≤ x.userCount := by
              have := List.all_eq_true.mp hall z hz
              exact of_decide_eq_true this
            exact le_of_lt (lt_of_lt_of_le hzy hzx)
          simp only [List.all_cons, hall, Bool.and_true, decide_eq_true hyx]
        | false => simp only [List.all_cons, hall, Bool.and_false]
    · -- the accumulator stays a; y cannot attain the maximum
      have hya' : y.userCount ≤ a.userCount := not_lt.mp hya
      rcases _h with ⟨w, hw, haw⟩
      have hwys : w ∈ ys := by
        rcases List.mem_cons.mp hw with hwy | hwys
        · exfalso
          rw [hwy] at haw
          exact absurd (lt_of_le_of_lt hya' haw) (lt_irrefl _)
        · exact hwys
      simp only [List.foldl_cons, if_neg hya]
      have hyfail : ((y :: ys).all
          (fun v => decide (v.userCount ≤ y.userCount))) = false := by
        apply Bool.eq_false_iff.mpr
        intro hcontra
        have := of_decide_eq_true
          (List.all_eq_true.mp hcontra w (List.mem_cons_of_mem y hwys))
        exact absurd (lt_of_le_of_lt hya' haw) (not_lt.mpr this)
      simp only [List.find?, hyfail]
      have := ih a ⟨w, hwys, haw⟩
      rw [← this]
      apply find?_congr_pred
      intro x hx
      cases hall : ys.all (fun v => decide (v.userCount ≤ x.userCount)) with
      | true =>
        have hwx : w.userCount ≤ x.userCount := by
          have := List.all_eq_true.mp hall w hwys
          exact of_decide_eq_true this
        have hyx : y.userCount ≤ x.userCount :=
          le_trans hya' (le_of_lt (lt_of_lt_of_le haw hwx))
        simp only [List.all_cons, hall, Bool.and_true, decide_eq_true hyx]
      | false => simp only [List.all_cons, hall, Bool.and_false]

/-- The fold agrees with the first-maximum specification on every list. -/
theorem findMostTriggeredIssue_eq_firstWithMax
    (issues : List SentryIssueListItem) :
    findMostTriggeredIssue issues = firstWithMaxUserCount issues := by
  cases issues with
  | nil => rfl
  | cons first rest =>
    simp only [findMostTriggeredIssue, firstWithMaxUserCount]
    by_cases hmax : ∀ z ∈ rest, z.userCount ≤ first.userCount
    · have hall : ∀ z ∈ first :: rest, z.userCount ≤ first.userCount := by
        intro z hz
        rcases List.mem_cons.mp hz with hz | hz
        · exact le_of_eq (congrArg SentryIssueListItem.userCount hz)
        · exact hmax z hz
      rw [foldl_max_of_all_le (first :: rest) first hall]
      have hp : ((first :: rest).all
          (fun z => decide (z.userCount ≤ first.userCount))) = true := by
        simp only [List.all_eq_true, decide_eq_true_iff]
        exact hall
      simp only [List.find?, hp]
    · push_neg at hmax
      rcases hmax with ⟨z, hz, hzy⟩
      have hex : ∃ y ∈ first :: rest, first.userCount < y.userCount :=
        ⟨z, List.mem_cons_of_mem first hz, hzy⟩
      exact (foldl_max_eq_find_of_exists_gt (first :: rest) first hex).symm

/-- C1: `findMostTriggeredIssue` returns, for every list, exactly the first
item in input order attaining the maximum affected-user count (so on every
non-empty list it returns the item with the maximum `userCount`, ties broken
toward the earliest item); and on the list with user counts 5, 9, 9 it
returns the second element. -/
theorem c1_findMostTriggered_first_max :
    (∀ issues : List SentryIssueListItem,
      findMostTriggeredIssue issues = firstWithMaxUserCount issues) ∧
    findMostTriggeredIssue
      [⟨"a", "ta", "error", "error", 5, "t1", 1⟩,
       ⟨"b", "tb", "error", "error", 9, "t2", 2⟩,
       ⟨"c", "tc", "error", "error", 9, "t3", 3⟩]
      = some ⟨"b", "tb", "error", "error", 9, "t2", 2⟩ := by
  constructor
  · exact findMostTriggeredIssue_eq_firstWithMax
  · decide

/-! ## String and character helpers

The source manipulates JavaScript strings with `startsWith`, `split`,
`filter(Boolean)` and regular expressions.  These are modelled below over
`String` and `List Char`. -/

/-- Model of the JavaScript regular-expression test `/^\d+$/.test s`: the
string is non-empty and consists of decimal digits only. -/
def isNumericStr (s : String) : Bool :=
  !s.data.isEmpty && s.data.all Char.isDigit

/-- Model of JavaScript `s.startsWith p`. -/
def strStartsWith (s p : String) : Bool :=
  p.data.isPrefixOf s.data

/-- Longest initial segment whose characters all fail `p` (stop at the first
character satisfying `p`). -/
def takeUntil (p : Char → Bool) : List Char → List Char
  | [] => []
  | c :: cs => if p c then [] else c :: takeUntil p cs

/-- Remainder of the list from the first character satisfying `p` on. -/
def dropUntil (p : Char → Bool) : List Char → List Char
  | [] => []
  | c :: cs => if p c then c :: cs else dropUntil p cs

/-- Model of JavaScript `s.split(sep)` for a one-character separator: the
pieces between occurrences of `sep`, keeping empty pieces. -/
def splitOnChar (sep : Char) : List Char → List (List Char)
  | [] => [[]]
  | c :: cs =>
    let r := splitOnChar sep cs
    if c = sep then [] :: r
    else (c :: r.headD []) :: r.tail

/-! ## Model of the WHATWG URL machinery

The program uses the platform `URL` and `URLSearchParams` classes, which are
external to the repository.  They are modelled here for the http/https
absolute-URL shapes that the program feeds them: scheme, `//`, host up to the
first `/`, `?` or `#`, then path up to the first `?` or `#`, then an optional
query up to `#`.  Percent-encoding is modelled only for the characters that
are structurally significant in a query string (space, `&`, `=`, `#`, `?`,
`+`, `%`); all other characters pass through unescaped.  This keeps the
model's encode/decode pair a faithful roundtrip and keeps query values
delimiter-safe, which are the properties the program relies on. -/

def hexVal (c : Char) : Nat :=
  if '0' ≤ c ∧ c ≤ '9' then c.toNat - '0'.toNat
  else if 'a' ≤ c ∧ c ≤ 'f' then c.toNat - 'a'.toNat + 10
  else if 'A' ≤ c ∧ c ≤ 'F' then c.toNat - 'A'.toNat + 10
  else 0

def isHexDigitB (c : Char) : Bool :=
  decide (('0' ≤ c ∧ c ≤ '9') ∨ ('a' ≤ c ∧ c ≤ 'f') ∨ ('A' ≤ c ∧ c ≤ 'F'))

/-- Encoding of one character for use inside a query key or value. -/
def encodeChar (c : Char) : List Char :=
  if c = ' ' then ['+']
  else if c = '&' then ['%', '2', '6']
  else if c = '=' then ['%', '3', 'D']
  else if c = '#' then ['%', '2', '3']
  else if c = '?' then ['%', '3', 'F']
  else if c = '+' then ['%', '2', 'B']
  else if c = '%' then ['%', '2', '5']
  else [c]

def encodeValue : List Char → List Char
  | [] => []
  | c :: rest => encodeChar c ++ encodeValue rest

/-- Decoding of a query key or value: `+` becomes a space and `%XY` with two
hexadecimal digits becomes the character with that code; a malformed escape
keeps its three characters verbatim (the platform rescans the two trailing
characters instead, a difference visible only on malformed input that the
program never constructs). -/
def decodeValue : List Char → List Char
  | [] => []
  | c :: rest =>
    if c = '+' then ' ' :: decodeValue rest
    else if c = '%' then
      match rest with
      | h1 :: h2 :: rest2 =>
        if isHexDigitB h1 && isHexDigitB h2 then
          Char.ofNat (16 * hexVal h1 + hexVal h2) :: decodeValue rest2
        else '%' :: h1 :: h2 :: decodeValue rest2
      | other => '%' :: other
    else c :: decodeValue rest

/-- Split one `key=value` piece of a query string at the first `=`, decoding
both sides; a piece with no `=` is a key with empty value. -/
def splitKV (piece : List Char) : String × String :=
  let k := takeUntil (fun c => c = '=') piece
  match dropUntil (fun c => c = '=') piece with
  | '=' :: vs => ((decodeValue k).asString, (decodeValue vs).asString)
  | _ => ((decodeValue k).asString, "")

/-- Model of the `URLSearchParams` constructor on a raw query string: split on
`&`, drop empty pieces, split each piece at its first `=`. -/
def parseQuery (q : List Char) : List (String × String) :=
  ((splitOnChar '&' q).filter (fun p => !p.isEmpty)).map splitKV

def renderPiece (kv : String × String) : List Char :=
  encodeValue kv.fst.data ++ '=' :: encodeValue kv.snd.data

def joinAmp : List (List Char) → List Char
  | [] => []
  | [x] => x
  | x :: y :: t => x ++ '&' :: joinAmp (y :: t)

/-- Model of `URLSearchParams.toString`. -/
def renderQuery (ps : List (String × String)) : String :=
  (joinAmp (ps.map renderPiece)).asString

/-- Parsed form of an http/https URL, as the program observes it through the
platform `URL` class: `protocol` keeps its trailing colon, `host` is
everything up to the path, `pathname` always starts with `/`, and
`searchParams` is the decoded key/value list. -/
structure ParsedUrl where
  protocol : String
  host : String
  pathname : String
  searchParams : List (String × String)
deriving Repr, DecidableEq

def isUrlDelim (c : Char) : Bool := c = '/' || c = '?' || c = '#'

def isQueryStart (c : Char) : Bool := c = '?' || c = '#'

def isHashChar (c : Char) : Bool := c = '#'

/-- Scheme-independent part of URL parsing: host up to the first delimiter,
path up to the first `?` or `#`, query up to `#`. -/
def parseAfterScheme (proto : String) (rest : List Char) : Option ParsedUrl :=
  let host := takeUntil isUrlDelim rest
  let afterHost := dropUntil isUrlDelim rest
  if host.isEmpty then none
  else
    let path := takeUntil isQueryStart afterHost
    let pathname := if path.isEmpty then ['/'] else path
    let query : List Char :=
      match dropUntil isQueryStart afterHost with
      | '?' :: qs => takeUntil isHashChar qs
      | _ => []
    some ⟨proto, host.asString, pathname.asString, parseQuery query⟩

/-- Model of the `new URL(s)` constructor, restricted to the http/https
absolute URLs this program constructs and feeds it.  `none` models the
constructor throwing. -/
def parseUrl (s : String) : Option ParsedUrl :=
  if strStartsWith s "http://" then parseAfterScheme "http:" (s.data.drop 7)
  else if strStartsWith s "https://" then parseAfterScheme "https:" (s.data.drop 8)
  else none

/-- Model of `URL.toString()` on a URL whose components were set by the
program. -/
def urlToString (u : ParsedUrl) : String :=
  u.protocol ++ "//" ++ u.host ++ u.pathname ++
    (if u.searchParams.isEmpty then "" else "?" ++ renderQuery u.searchParams)

/-- Model of `parsedUrl.pathname.split('/').filter(Boolean)`. -/
def pathSegments (u : ParsedUrl) : List String :=
  ((splitOnChar '/' u.pathname.data).map (fun l => l.asString)).filter
    (fun s => s ≠ "")

/-- Model of `searchParams.get name`: the value of the first parameter with
that name, or `none` when absent. -/
def getSearchParam (u : ParsedUrl) (name : String) : Option String :=
  (u.searchParams.find? (fun kv => kv.fst == name)).map Prod.snd

/-! ## Model of `extractIssueId` (src/utils.ts) -/

/-- Model of `extractIssueId`: turn a bare ID or a Sentry issue URL into the
numeric issue identifier; `Except.error` models a thrown `SentryError`.
Error texts are abbreviated but in one-to-one correspondence with the
source's messages. -/
def extractIssueId (issueIdOrUrl : String) : Except String String :=
  if issueIdOrUrl = "" then .error "Missing issue_id_or_url argument"
  else
    let fromUrl : Except String String :=
      if strStartsWith issueIdOrUrl "http://"
          || strStartsWith issueIdOrUrl "https://" then
        match parseUrl issueIdOrUrl with
        | none => .error "Invalid URL"
        | some parsedUrl =>
          let pathParts := pathSegments parsedUrl
          if pathParts.length < 2
              || !(pathParts[pathParts.length - 2]? == some "issues") then
            .error "Invalid Sentry issue URL. Path must contain /issues/id"
          else
            match pathParts[pathParts.length - 1]? with
            | some lastSeg => .ok lastSeg
            | none => .error "Invalid Sentry issue URL. Path must contain /issues/id"
      else .ok issueIdOrUrl
    match fromUrl with
    | .error e => .error e
    | .ok issueId =>
      if isNumericStr issueId then .ok issueId
      else .error "Invalid Sentry issue ID. Must be a numeric value."

/-! ## Model of `createStacktrace` (src/utils.ts)

The event payload is untyped (`any`) in the source; the structure below holds
exactly the fields the function reads.  `Option` models absent/null fields,
and the explicit empty-string checks model JavaScript falsiness of `''` in
the `||` defaults. -/

structure StackFrame where
  filename : Option String
  lineNo : Option Int
  function : Option String
  context : List (Int × String)
deriving Repr, DecidableEq

structure SentryStacktrace where
  frames : Option (List StackFrame)
deriving Repr, DecidableEq

structure SentryExceptionValue where
  type : Option String
  value : Option String
  stacktrace : Option SentryStacktrace
deriving Repr, DecidableEq

structure SentryEntry where
  type : String
  values : List SentryExceptionValue
deriving Repr, DecidableEq

structure SentryEvent where
  entries : Option (List SentryEntry)
deriving Repr, DecidableEq

/-- Model of `frame.filename || 'Unknown'` and the analogous defaults:
JavaScript `||` replaces `undefined`, `null` and `''` by the default. -/
def orDefaultStr (v : Option String) (dflt : String) : String :=
  match v with
  | some s => if s = "" then dflt else s
  | none => dflt

/-- Model of `frame.lineNo || '?'`: the line number rendered as text, with
absent and zero (falsy) line numbers shown as `?`. -/
def lineNoText (v : Option Int) : String :=
  match v with
  | some n => if n = 0 then "?" else toString n
  | none => toString "?"

/-- Text contributed by one stack frame: the location line, then the source
context lines indented by four spaces (appended left to right like the `+=`
loop in the source), then a blank line. -/
def frameText (frame : StackFrame) : String :=
  let filename := orDefaultStr frame.filename "Unknown"
  let lineno := lineNoText frame.lineNo
  let func := orDefaultStr frame.function "Unknown"
  (frame.context.foldl (fun acc ctx => acc ++ ("    " ++ ctx.snd ++ "\n"))
      (filename ++ ":" ++ lineno ++ " in " ++ func ++ "\n")) ++ "\n"

/-- Text contributed by one exception value: the `Exception:` header and, when
a stacktrace is present, the `Stacktrace:` label and the frame texts appended
left to right. -/
def exceptionText (exc : SentryExceptionValue) : String :=
  let exceptionType := orDefaultStr exc.type "Unknown"
  let exceptionValue := (exc.value).getD ""
  let header := "Exception: " ++ exceptionType ++ ": " ++ exceptionValue ++ "\n\n"
  match exc.stacktrace with
  | none => header
  | some st =>
    (st.frames.getD []).foldl (fun acc frame => acc ++ frameText frame)
      (header ++ "Stacktrace:\n")

/-- Model of `createStacktrace`: one text block per exception value of each
`exception`-typed entry, joined with `\n`; the sentinel text when there are
no blocks. -/
def createStacktrace (latestEvent : SentryEvent) : String :=
  let stacktraces :=
    (((latestEvent.entries).getD []).filter
        (fun entry => entry.type = "exception")).foldr
      (fun entry acc => entry.values.map exceptionText ++ acc) []
  if stacktraces.length > 0 then String.intercalate "\n" stacktraces
  else "No stacktrace found"

/-! ## Model of `extractIssuesApiUrl` (src/utils.ts) -/

def defaultIssuesQuery : String := "error.unhandled:true is:unresolved"

/-- Model of `searchParams.set`: replace the first binding of the key and drop
any later duplicates, or append the binding at the end when the key is new. -/
def setParam : List (String × String) → String → String → List (String × String)
  | [], k, v => [(k, v)]
  | (k0, v0) :: rest, k, v =>
    if k0 = k then (k, v) :: rest.filter (fun kv => kv.fst ≠ k)
    else (k0, v0) :: setParam rest k v

/-- Organization derivation: the path segment following the first
`organizations` segment. -/
def deriveOrganization (u : ParsedUrl) : Option String :=
  let segs := pathSegments u
  match segs.findIdx? (fun s => s == "organizations") with
  | some i => segs[i + 1]?
  | none => none

/-- Project derivation: a non-empty `project` query parameter when present
(JavaScript truthiness makes an empty value fall through), otherwise the path
segment following the first `projects` segment. -/
def deriveProject (u : ParsedUrl) : Option String :=
  let segs := pathSegments u
  let fromPath : Option String :=
    match segs.findIdx? (fun s => s == "projects") with
    | some i => segs[i + 1]?
    | none => none
  match getSearchParam u "project" with
  | some pv => if pv = "" then fromPath else some pv
  | none => fromPath

/-- Model of `extractIssuesApiUrl`: derive organization and project from the
input URL and rebuild the canonical issues-list API URL with the fixed
parameter set.  `Except.error` models a thrown `SentryError`. -/
def extractIssuesApiUrl (url : String) : Except String String :=
  if url = "" then .error "Missing URL argument"
  else
    match parseUrl url with
    | none => .error "Invalid URL or URL format"
    | some parsedUrl =>
      match deriveOrganization parsedUrl with
      | none => .error "Could not extract organization from URL"
      | some organization =>
        match deriveProject parsedUrl with
        | none => .error "Could not extract project ID from URL"
        | some project =>
          let baseUrl := parsedUrl.protocol ++ "//" ++ parsedUrl.host
          let apiUrl :=
            baseUrl ++ "/api/0/organizations/" ++ organization ++ "/issues/"
          match parseUrl apiUrl with
          | none => .error "Invalid URL or URL format"
          | some finalUrl0 =>
            let ps0 := setParam finalUrl0.searchParams "project" project
            let ps1 := setParam ps0 "limit" "5"
            let ps2 := setParam ps1 "sort" "freq"
            let ps3 := setParam ps2 "statsPeriod" "14d"
            let ps4 :=
              match getSearchParam parsedUrl "query" with
              | some q =>
                if q = "" then setParam ps3 "query" defaultIssuesQuery
                else setParam ps3 "query" q
              | none => setParam ps3 "query" defaultIssuesQuery
            .ok (urlToString
              ⟨finalUrl0.protocol, finalUrl0.host, finalUrl0.pathname, ps4⟩)

/-! ## Model of the remaining response shaping (src/types.ts) -/

structure SentryIssueData where
  title : String
  issueId : String
  status : String
  level : String
  firstSeen : String
  lastSeen : String
  count : Int
  stacktrace : String
deriving Repr, DecidableEq

structure PromptMessage where
  role : String
  text : String
deriving Repr, DecidableEq

structure GetPromptResult where
  description : String
  messages : List PromptMessage
deriving Repr, DecidableEq

structure SentryIssuesListData where
  issues : List SentryIssueListItem
deriving Repr, DecidableEq

/-- Body text of the most-triggered-issue prompt for a found item. -/
def mostTriggeredText (i : SentryIssueListItem) : String :=
  "The issue affecting the most users (" ++ toString i.userCount ++
    " users) is:\n\n" ++
    "ID: " ++ i.id ++ "\n" ++
    "Title: " ++ i.title ++ "\n" ++
    "Type: " ++ i.issueType ++ ", Level: " ++ i.level ++ "\n" ++
    "Last Seen: " ++ i.lastSeen ++ "\n" ++
    "Event Count: " ++ toString i.count

/-- Model of `SentryIssuesListData.toMostTriggeredPromptResult`. -/
def toMostTriggeredPromptResult (d : SentryIssuesListData) : GetPromptResult :=
  match findMostTriggeredIssue d.issues with
  | none =>
    ⟨"No issues found", [⟨"user", "No issues were found in the list."⟩]⟩
  | some mostTriggeredIssue =>
    ⟨"Most Triggered Issue: " ++ mostTriggeredIssue.title,
      [⟨"user", mostTriggeredText mostTriggeredIssue⟩]⟩

/-! ## Model of the request orchestrators (src/core.ts)

The axios HTTP client is a collaborator external to the repository; each
outbound call is modelled by an oracle function from the request path to a
`FetchResult`.  `unauthorized` models an axios error carrying HTTP status
401, `failure` any other thrown error with its message. -/

inductive FetchResult (α : Type) where
  | success (data : α)
  | unauthorized
  | failure (msg : String)

/-- Fields of the issue resource that `handleSentryIssue` reads. -/
structure IssueFields where
  title : String
  status : String
  level : String
  firstSeen : String
  lastSeen : String
  count : Int
deriving Repr, DecidableEq

structure SentryHash where
  latestEvent : SentryEvent
deriving Repr, DecidableEq

def unauthorizedMessage : String :=
  "Error: Unauthorized. Please check your SENTRY_TOKEN."

def issueFetchContext : String := "Error fetching Sentry issue: "

def noEventsMessage : String := "No Sentry events found for this issue"

/-- Model of `handleSentryIssue`, parameterized over the stacktrace formatter
so that its non-involvement in failure paths is expressible.  The hashes body
is `Option`al: `none` models a missing response body (`!hashes`).  The outer
`catch` rethrows `SentryError`s from `extractIssueId` unchanged and wraps
every other error with the fetch context. -/
def handleSentryIssueWith (stacktraceOf : SentryEvent → String)
    (fetchIssue : String → FetchResult IssueFields)
    (fetchHashes : String → FetchResult (Option (List SentryHash)))
    (issueIdOrUrl : String) : Except String SentryIssueData :=
  match extractIssueId issueIdOrUrl with
  | .error e => .error e
  | .ok issueId =>
    let inner : Except String SentryIssueData :=
      match fetchIssue issueId with
      | .unauthorized => .error unauthorizedMessage
      | .failure m => .error m
      | .success issueData =>
        match fetchHashes issueId with
        | .unauthorized => .error unauthorizedMessage
        | .failure m => .error m
        | .success none => .error noEventsMessage
        | .success (some []) => .error noEventsMessage
        | .success (some (firstHash :: _)) =>
          .ok ⟨issueData.title, issueId, issueData.status, issueData.level,
            issueData.firstSeen, issueData.lastSeen, issueData.count,
            stacktraceOf firstHash.latestEvent⟩
    match inner with
    | .ok d => .ok d
    | .error m => .error (issueFetchContext ++ m)

/-- The orchestrator as shipped, with the real formatter plugged in. -/
def handleSentryIssue
    (fetchIssue : String → FetchResult IssueFields)
    (fetchHashes : String → FetchResult (Option (List SentryHash)))
    (issueIdOrUrl : String) : Except String SentryIssueData :=
  handleSentryIssueWith createStacktrace fetchIssue fetchHashes issueIdOrUrl

/-- Raw element of the issues-list response; the count fields keep their raw
textual form and are parsed with `parseInt(x) || 0`. -/
structure RawIssue where
  id : String
  title : String
  issueType : String
  level : String
  userCount : String
  lastSeen : String
  count : String
deriving Repr, DecidableEq

/-- The issues-list response body: a JSON array or anything else. -/
inductive ListBody where
  | array (items : List RawIssue)
  | notArray

def digitsToNat (l : List Char) : Nat :=
  l.foldl (fun acc c => 10 * acc + (c.toNat - '0'.toNat)) 0

/-- Model of `parseInt(x) || 0`: skip leading whitespace, read an optional
sign and then leading decimal digits; no digits (NaN) yields 0.  The
hexadecimal `0x` form is not modelled. -/
def parseIntOr0 (s : String) : Int :=
  let l := s.data.dropWhile Char.isWhitespace
  let signAndRest : Bool × List Char :=
    match l with
    | '-' :: rest => (true, rest)
    | '+' :: rest => (false, rest)
    | _ => (false, l)
  let digits := signAndRest.snd.takeWhile Char.isDigit
  if digits.isEmpty then 0
  else if signAndRest.fst then -(digitsToNat digits : Int)
  else (digitsToNat digits : Int)

def toListItem (issue : RawIssue) : SentryIssueListItem :=
  ⟨issue.id, issue.title, issue.issueType, issue.level,
    parseIntOr0 issue.userCount, issue.lastSeen, parseIntOr0 issue.count⟩

def listFetchContext : String := "Error fetching Sentry issues list: "

def noIssuesMessage : String := "No issues found or invalid response format"

/-- Model of `handleSentryIssuesList`.  The single `catch` maps a 401 to the
fixed authorization message and wraps every other error, including the
`SentryError`s of `extractIssuesApiUrl`, with the list-fetch context. -/
def handleSentryIssuesList
    (fetchList : String → FetchResult ListBody)
    (url : String) : Except String SentryIssuesListData :=
  match extractIssuesApiUrl url with
  | .error e => .error (listFetchContext ++ e)
  | .ok apiUrl =>
    match fetchList apiUrl with
    | .unauthorized => .error unauthorizedMessage
    | .failure m => .error (listFetchContext ++ m)
    | .success .notArray => .error (listFetchContext ++ noIssuesMessage)
    | .success (.array []) => .error (listFetchContext ++ noIssuesMessage)
    | .success (.array (i :: rest)) => .ok ⟨(i :: rest).map toListItem⟩

/-! ## Claims about the aggregator and the orchestrators -/

/-- C9: `findMostTriggeredIssue` returns `none` exactly on the empty list,
and in that case `toMostTriggeredPromptResult` returns the fixed
no-issues-found prompt (description `No issues found`, single user message
`No issues were found in the list.`) as a normal result rather than an
error. -/
theorem c9_empty_list_prompt :
    (∀ issues : List SentryIssueListItem,
      findMostTriggeredIssue issues = none ↔ issues = []) ∧
    toMostTriggeredPromptResult ⟨[]⟩ =
      ⟨"No issues found", [⟨"user", "No issues were found in the list."⟩]⟩ := by
  constructor
  · intro issues
    cases issues with
    | nil => simp [findMostTriggeredIssue]
    | cons a t => simp [findMostTriggeredIssue]
  · rfl

/-- C6: an event none of whose entries has type `exception` (in particular an
event with no entries at all) formats to exactly the sentinel text. -/
theorem c6_no_exception_entries_sentinel (ev : SentryEvent)
    (h : ∀ entry ∈ (ev.entries).getD [], entry.type ≠ "exception") :
    createStacktrace ev = "No stacktrace found" := by
  have hfilter :
      ((ev.entries).getD []).filter (fun entry => entry.type = "exception")
        = [] := by
    apply List.filter_eq_nil_iff.mpr
    intro a ha
    simp only [decide_eq_true_iff]
    exact h a ha
  simp [createStacktrace, hfilter]

/-- Witness for C6 at the event with absent entries. -/
theorem c6_no_exception_entries_sentinel_witness :
    (∀ entry ∈ ((SentryEvent.mk none).entries).getD [],
        entry.type ≠ "exception") ∧
    createStacktrace (SentryEvent.mk none) = "No stacktrace found" :=
  ⟨by simp, c6_no_exception_entries_sentinel ⟨none⟩ (by simp)⟩

/-- C8: whenever the hashes fetch succeeds with a missing body or an empty
array, the single-issue orchestrator fails with the wrapped
no-events-found message, and the result does not depend on the stacktrace
formatter at all (so the formatter and the issue data are never used and no
partial result is returned). -/
theorem c8_empty_hashes_fails_before_formatter
    (stacktraceOf : SentryEvent → String)
    (fetchIssue : String → FetchResult IssueFields)
    (fetchHashes : String → FetchResult (Option (List SentryHash)))
    (url issueId : String) (fields : IssueFields)
    (body : Option (List SentryHash))
    (hid : extractIssueId url = .ok issueId)
    (hissue : fetchIssue issueId = .success fields)
    (hhashes : fetchHashes issueId = .success body)
    (hempty : body = none ∨ body = some []) :
    handleSentryIssueWith stacktraceOf fetchIssue fetchHashes url
      = .error (issueFetchContext ++ noEventsMessage) := by
  rcases hempty with h | h <;>
    simp [handleSentryIssueWith, hid, hissue, hhashes, h]

/-- Witness for C8 with a concrete empty hashes response. -/
theorem c8_empty_hashes_fails_before_formatter_witness :
    extractIssueId "123" = .ok "123" ∧
    handleSentryIssueWith createStacktrace
      (fun _ => .success ⟨"t", "unresolved", "error", "f", "l", 1⟩)
      (fun _ => .success (some []))
      "123" = .error (issueFetchContext ++ noEventsMessage) :=
  ⟨rfl,
    c8_empty_hashes_fails_before_formatter createStacktrace
      (fun _ => .success ⟨"t", "unresolved", "error", "f", "l", 1⟩)
      (fun _ => .success (some [])) "123" "123"
      ⟨"t", "unresolved", "error", "f", "l", 1⟩ (some [])
      rfl rfl rfl (Or.inr rfl)⟩

/-- C7 as stated is false: a 401 on the single-issue path is wrapped with the
fetch context by the outer catch, while a 401 on the issues-list path yields
the bare fixed message, so the two failure messages differ. -/
theorem c7_counterexample :
    handleSentryIssue (fun _ => .unauthorized) (fun _ => .unauthorized)
        "12345"
      = .error (issueFetchContext ++ unauthorizedMessage) ∧
    handleSentryIssuesList (fun _ => .unauthorized)
        "https://h/organizations/o/?project=1"
      = .error unauthorizedMessage ∧
    issueFetchContext ++ unauthorizedMessage ≠ unauthorizedMessage := by
  refine ⟨rfl, rfl, by decide⟩

/-- C7 amended: a 401 from either call of the single-issue path always yields
the one message `Error fetching Sentry issue: Error: Unauthorized. Please
check your SENTRY_TOKEN.` (the fixed authorization text wrapped in the
single-issue fetch context), and a 401 from the issues-list fetch always
yields the bare fixed authorization text; in every case the fixed
authorization text determines the failure, but the single-issue path wraps
it with its fetch context. -/
theorem c7_amended_unauthorized_messages :
    (∀ (fetchIssue : String → FetchResult IssueFields)
        (fetchHashes : String → FetchResult (Option (List SentryHash)))
        (url issueId : String),
      extractIssueId url = .ok issueId →
      (fetchIssue issueId = .unauthorized ∨
        (∃ fields, fetchIssue issueId = .success fields ∧
          fetchHashes issueId = .unauthorized)) →
      handleSentryIssue fetchIssue fetchHashes url
        = .error (issueFetchContext ++ unauthorizedMessage)) ∧
    (∀ (fetchList : String → FetchResult ListBody) (url apiUrl : String),
      extractIssuesApiUrl url = .ok apiUrl →
      fetchList apiUrl = .unauthorized →
      handleSentryIssuesList fetchList url = .error unauthorizedMessage) := by
  constructor
  · intro fetchIssue fetchHashes url issueId hid h401
    rcases h401 with h | ⟨fields, hsucc, h⟩
    · simp [handleSentryIssue, handleSentryIssueWith, hid, h]
    · simp [handleSentryIssue, handleSentryIssueWith, hid, hsucc, h]
  · intro fetchList url apiUrl hurl h401
    simp [handleSentryIssuesList, hurl, h401]

/-- Witness for the amended C7 on concrete 401 scenarios. -/
theorem c7_amended_unauthorized_messages_witness :
    extractIssueId "12345" = .ok "12345" ∧
    handleSentryIssue (fun _ => .unauthorized) (fun _ => .unauthorized)
        "12345"
      = .error (issueFetchContext ++ unauthorizedMessage) ∧
    extractIssuesApiUrl "https://h/organizations/o/?project=1"
      = .ok "https://h/api/0/organizations/o/issues/?project=1&limit=5&sort=freq&statsPeriod=14d&query=error.unhandled:true+is:unresolved" ∧
    handleSentryIssuesList (fun _ => .unauthorized)
        "https://h/organizations/o/?project=1"
      = .error unauthorizedMessage :=
  ⟨rfl,
    c7_amended_unauthorized_messages.1 (fun _ => .unauthorized)
      (fun _ => .unauthorized) "12345" "12345" rfl (Or.inl rfl),
    rfl,
    c7_amended_unauthorized_messages.2 (fun _ => .unauthorized)
      "https://h/organizations/o/?project=1"
      "https://h/api/0/organizations/o/issues/?project=1&limit=5&sort=freq&statsPeriod=14d&query=error.unhandled:true+is:unresolved"
      rfl rfl⟩

/-! ## Claim C2: characterization of `extractIssueId` -/

/-- Spec-side restatement of the identifier-normalizer contract as the claim
words it: an all-digit string is returned unchanged; an input beginning with
`http://` or `https://` yields the final path segment `n` exactly when the
non-empty path segments end with the literal `issues` followed by the
all-digit segment `n`; everything else is rejected. -/
def claimedIssueId (s : String) : Option String :=
  if isNumericStr s then some s
  else if strStartsWith s "http://" || strStartsWith s "https://" then
    match parseUrl s with
    | some u =>
      match (pathSegments u).reverse with
      | lastSeg :: prev :: _ =>
        if prev = "issues" && isNumericStr lastSeg then some lastSeg else none
      | _ => none
    | none => none
  else none

/-- A string whose characters match a non-empty literal at the front starts
with that literal's first character. -/
theorem strStartsWith_head_eq {s p : String} {c : Char} {cs : List Char}
    (hp : p.data = c :: cs) (h : strStartsWith s p = true) :
    ∃ t, s.data = c :: t := by
  unfold strStartsWith at h
  rw [hp] at h
  cases hd : s.data with
  | nil => rw [hd] at h; simp [List.isPrefixOf] at h
  | cons b t =>
    rw [hd] at h
    simp only [List.isPrefixOf, Bool.and_eq_true] at h
    exact ⟨t, by rw [eq_of_beq h.left]⟩

/-- A numeric string does not look like a URL. -/
theorem isNumericStr_not_url {s : String} (h : isNumericStr s = true) :
    (strStartsWith s "http://" || strStartsWith s "https://") = false := by
  apply Bool.eq_false_iff.mpr
  intro hcontra
  have hdigits : s.data.all Char.isDigit = true := by
    have hh := h
    simp only [isNumericStr, Bool.and_eq_true] at hh
    exact hh.right
  have hhead : ∃ t, s.data = 'h' :: t := by
    rw [Bool.or_eq_true] at hcontra
    rcases hcontra with h1 | h1
    · exact strStartsWith_head_eq (by rfl) h1
    · exact strStartsWith_head_eq (by rfl) h1
  rcases hhead with ⟨t, ht⟩
  rw [ht] at hdigits
  simp only [List.all_cons, Bool.and_eq_true] at hdigits
  exact absurd hdigits.left (by decide)

/-- The empty string is not numeric. -/
theorem isNumericStr_empty : isNumericStr "" = false := by decide

/-- C2: `extractIssueId` succeeds with result `r` exactly as the claimed
contract states: all-digit inputs are returned unchanged, URLs whose
non-empty path segments end with `issues` followed by an all-digit segment
yield that segment, and every other input (empty input, URL whose
second-to-last segment is not `issues`, unparsable URL, non-digit
identifier) is rejected with an error. -/
theorem c2_extractIssueId_spec (s r : String) :
    extractIssueId s = .ok r ↔ claimedIssueId s = some r := by
  by_cases hnum : isNumericStr s = true
  · have hne : s ≠ "" := by
      intro h0
      rw [h0, isNumericStr_empty] at hnum
      exact Bool.false_ne_true hnum
    have hurl := isNumericStr_not_url hnum
    simp [extractIssueId, claimedIssueId, hne, hnum, hurl]
  · have hnum' : isNumericStr s = false := Bool.eq_false_iff.mpr hnum
    by_cases hse : s = ""
    · subst hse
      simp [extractIssueId, claimedIssueId, isNumericStr_empty,
        (by decide : strStartsWith "" "http://" = false),
        (by decide : strStartsWith "" "https://" = false)]
    · cases hhttp : (strStartsWith s "http://" || strStartsWith s "https://") with
      | false =>
        simp [extractIssueId, claimedIssueId, hse, hhttp, hnum']
      | true =>
        cases hp : parseUrl s with
        | none =>
          simp [extractIssueId, claimedIssueId, hse, hhttp, hp, hnum']
        | some u =>
          rcases hrev : (pathSegments u).reverse with _ | ⟨lastSeg, rest⟩
          · have hnil : pathSegments u = [] := by
              have := congrArg List.reverse hrev
              simpa using this
            simp [extractIssueId, claimedIssueId, hse, hhttp, hp, hnum', hnil,
              hrev]
          · rcases rest with _ | ⟨prev, t⟩
            · have hone : pathSegments u = [lastSeg] := by
                have := congrArg List.reverse hrev
                simpa using this
              simp [extractIssueId, claimedIssueId, hse, hhttp, hp, hnum',
                hone, hrev]
            · have hpp : pathSegments u = t.reverse ++ [prev, lastSeg] := by
                have := congrArg List.reverse hrev
                simp only [List.reverse_reverse, List.reverse_cons] at this
                rw [this]
                simp
              have hlen : (pathSegments u).length = t.length + 2 := by
                rw [hpp]; simp
              have hget2 :
                  (pathSegments u)[(pathSegments u).length - 2]? = some prev := by
                rw [hpp]
                have h2 : (t.reverse ++ [prev, lastSeg]).length - 2
                    = t.reverse.length := by simp
                rw [h2, List.getElem?_append_right (le_refl _)]
                simp
              have hget1 :
                  (pathSegments u)[(pathSegments u).length - 1]? = some lastSeg := by
                rw [hpp]
                have h1 : (t.reverse ++ [prev, lastSeg]).length - 1
                    = t.reverse.length + 1 := by simp
                rw [h1, List.getElem?_append_right (Nat.le_succ _)]
                simp
              have hnotlt : ¬ ((pathSegments u).length < 2) := by omega
              by_cases hprev : prev = "issues"
              · subst hprev
                by_cases hlast : isNumericStr lastSeg = true
                · simp [extractIssueId, claimedIssueId, hse, hhttp, hp, hnum',
                    hrev, hget1, hget2, hnotlt, hlast]
                · have hlast' : isNumericStr lastSeg = false :=
                    Bool.eq_false_iff.mpr hlast
                  simp [extractIssueId, claimedIssueId, hse, hhttp, hp, hnum',
                    hrev, hget1, hget2, hnotlt, hlast']
              · simp [extractIssueId, claimedIssueId, hse, hhttp, hp, hnum',
                  hrev, hget1, hget2, hnotlt, hprev]

/-! ## Claim C5: shape of the formatted stacktrace -/

/-- Join a list of lines, terminating every line with a newline. -/
def joinLines : List String → String
  | [] => ""
  | l :: rest => l ++ "\n" ++ joinLines rest

/-- Lines contributed by one frame according to the amended claim: the
location line `{filename}:{lineNo} in {function}`, the indented context
lines, and a closing blank line. -/
def specFrameLines (frame : StackFrame) : List String :=
  (orDefaultStr frame.filename "Unknown" ++ ":" ++ lineNoText frame.lineNo
      ++ " in " ++ orDefaultStr frame.function "Unknown")
    :: (frame.context.map (fun ctx => "    " ++ ctx.snd) ++ [""])

/-- Block contributed by one exception value according to the amended claim:
the `Exception: {type}: {value}` header, a blank line, and when a stacktrace
is present the `Stacktrace:` label followed by the frame lines in order. -/
def specExceptionBlock (exc : SentryExceptionValue) : String :=
  let headerLine := "Exception: " ++ orDefaultStr exc.type "Unknown" ++ ": "
      ++ (exc.value).getD ""
  match exc.stacktrace with
  | none => joinLines [headerLine, ""]
  | some st =>
    joinLines ([headerLine, "", "Stacktrace:"] ++
      (st.frames.getD []).foldr (fun f acc => specFrameLines f ++ acc) [])

/-- Amended-claim stacktrace: one block per exception value of each
`exception`-typed entry, blocks joined by blank lines, with the sentinel for
no blocks. -/
def specStacktrace (ev : SentryEvent) : String :=
  let blocks :=
    (((ev.entries).getD []).filter
        (fun entry => entry.type = "exception")).foldr
      (fun entry acc => entry.values.map specExceptionBlock ++ acc) []
  if blocks.isEmpty then "No stacktrace found"
  else String.intercalate "\n" blocks

/-- Frame lines in the exact form the original claim asserts:
`{filename}:{lineNo}:{function}`. -/
def claimedFrameLines (frame : StackFrame) : List String :=
  (orDefaultStr frame.filename "Unknown" ++ ":" ++ lineNoText frame.lineNo
      ++ ":" ++ orDefaultStr frame.function "Unknown")
    :: (frame.context.map (fun ctx => "    " ++ ctx.snd) ++ [""])

/-- Exception block as the original claim asserts it, with the
colon-separated frame line form. -/
def claimedExceptionBlock (exc : SentryExceptionValue) : String :=
  let headerLine := "Exception: " ++ orDefaultStr exc.type "Unknown" ++ ": "
      ++ (exc.value).getD ""
  match exc.stacktrace with
  | none => joinLines [headerLine, ""]
  | some st =>
    joinLines ([headerLine, "", "Stacktrace:"] ++
      (st.frames.getD []).foldr (fun f acc => claimedFrameLines f ++ acc) [])

/-- Stacktrace as the original claim asserts it. -/
def claimedStacktrace (ev : SentryEvent) : String :=
  let blocks :=
    (((ev.entries).getD []).filter
        (fun entry => entry.type = "exception")).foldr
      (fun entry acc => entry.values.map claimedExceptionBlock ++ acc) []
  if blocks.isEmpty then "No stacktrace found"
  else String.intercalate "\n" blocks

theorem joinLines_append (xs ys : List String) :
    joinLines (xs ++ ys) = joinLines xs ++ joinLines ys := by
  induction xs with
  | nil => simp [joinLines]
  | cons x xs ih =>
    simp only [List.cons_append, joinLines, List.append_eq, ih,
      String.append_assoc]

theorem foldl_strAppend {α : Type} (g : α → String) (xs : List α) :
    ∀ a : String,
      xs.foldl (fun acc x => acc ++ g x) a
        = a ++ xs.foldr (fun x acc => g x ++ acc) "" := by
  induction xs with
  | nil => intro a; simp
  | cons x xs ih =>
    intro a
    simp only [List.foldl_cons, List.foldr_cons, ih, String.append_assoc]

theorem ctx_foldr_eq_joinLines (ctx : List (Int × String)) :
    ctx.foldr (fun c acc => ("    " ++ c.snd ++ "\n") ++ acc) ""
      = joinLines (ctx.map (fun c => "    " ++ c.snd)) := by
  induction ctx with
  | nil => rfl
  | cons c cs ih =>
    simp only [List.foldr_cons, List.map_cons, joinLines]
    rw [ih]

theorem joinLines_single_empty : joinLines [""] = "\n" := rfl

theorem frameText_eq_joinLines (frame : StackFrame) :
    frameText frame = joinLines (specFrameLines frame) := by
  dsimp only [frameText, specFrameLines]
  rw [foldl_strAppend, ctx_foldr_eq_joinLines, joinLines, joinLines_append,
    joinLines_single_empty]
  simp [String.append_assoc]

theorem frames_foldr_eq_joinLines (frames : List StackFrame) :
    frames.foldr (fun f acc => frameText f ++ acc) ""
      = joinLines (frames.foldr (fun f acc => specFrameLines f ++ acc) []) := by
  induction frames with
  | nil => rfl
  | cons f fs ih =>
    simp only [List.foldr_cons]
    rw [ih, frameText_eq_joinLines, ← joinLines_append]

theorem exceptionText_eq_specBlock (exc : SentryExceptionValue) :
    exceptionText exc = specExceptionBlock exc := by
  dsimp only [exceptionText, specExceptionBlock]
  cases hst : exc.stacktrace with
  | none =>
    show _ ++ "\n\n" = joinLines [_, ""]
    rw [joinLines, joinLines_single_empty]
    simp only [String.append_assoc]
    congr 1
  | some st =>
    dsimp only
    rw [foldl_strAppend, frames_foldr_eq_joinLines, joinLines_append]
    congr 1
    rw [joinLines,
      show joinLines ["", "Stacktrace:"] = "\nStacktrace:\n" from rfl]
    simp only [String.append_assoc]
    rw [show ("\n\n" ++ "Stacktrace:\n" : String)
        = "\n" ++ "\nStacktrace:\n" from rfl]

/-- C5 as stated is false: the frame location line uses the form
`{filename}:{lineNo} in {function}`, not `{filename}:{lineNo}:{function}`,
as this one-frame event shows. -/
theorem c5_counterexample :
    createStacktrace
        ⟨some [⟨"exception", [⟨some "Error", some "Test error",
          some ⟨some [⟨some "app.js", some 10, some "main", []⟩]⟩⟩]⟩]⟩
      = "Exception: Error: Test error\n\nStacktrace:\napp.js:10 in main\n\n" ∧
    claimedStacktrace
        ⟨some [⟨"exception", [⟨some "Error", some "Test error",
          some ⟨some [⟨some "app.js", some 10, some "main", []⟩]⟩⟩]⟩]⟩
      = "Exception: Error: Test error\n\nStacktrace:\napp.js:10:main\n\n" ∧
    createStacktrace
        ⟨some [⟨"exception", [⟨some "Error", some "Test error",
          some ⟨some [⟨some "app.js", some 10, some "main", []⟩]⟩⟩]⟩]⟩
      ≠ claimedStacktrace
        ⟨some [⟨"exception", [⟨some "Error", some "Test error",
          some ⟨some [⟨some "app.js", some 10, some "main", []⟩]⟩⟩]⟩]⟩ := by
  refine ⟨rfl, rfl, by decide⟩

/-- C5 amended: for every event payload, `createStacktrace` processes only
`exception`-typed entries; each exception value contributes the header line
`Exception: {type}: {value}`, a blank line, and, when a stacktrace is
present, a `Stacktrace:` label line followed, for each frame in order, by
the line `{filename}:{lineNo} in {function}`, the frame's source-context
lines indented, and a closing blank line; the per-exception blocks are
joined by blank lines. -/
theorem c5_amended_stacktrace_shape (ev : SentryEvent) :
    createStacktrace ev = specStacktrace ev := by
  unfold createStacktrace specStacktrace
  have hfun : exceptionText = specExceptionBlock :=
    funext exceptionText_eq_specBlock
  rw [hfun]
  cases hblocks :
      (((ev.entries).getD []).filter
          (fun entry => entry.type = "exception")).foldr
        (fun entry acc => entry.values.map specExceptionBlock ++ acc) [] with
  | nil => simp [hblocks]
  | cons b bs => simp [hblocks]

/-! ## Lemmas about the string scanning helpers -/

theorem asString_data (l : List Char) : (List.asString l).data = l := rfl

theorem data_asString (s : String) : (s.data).asString = s := rfl

theorem takeUntil_of_all_false {p : Char → Bool} {l : List Char}
    (h : ∀ c ∈ l, p c = false) : takeUntil p l = l := by
  induction l with
  | nil => rfl
  | cons c cs ih =>
    have hc := h c (List.mem_cons_self c cs)
    simp only [takeUntil, hc, Bool.false_eq_true, if_false, List.cons.injEq,
      true_and]
    exact ih (fun d hd => h d (List.mem_cons_of_mem c hd))

theorem takeUntil_append_false {p : Char → Bool} {xs : List Char}
    (ys : List Char) (h : ∀ c ∈ xs, p c = false) :
    takeUntil p (xs ++ ys) = xs ++ takeUntil p ys := by
  induction xs with
  | nil => rfl
  | cons c cs ih =>
    have hc := h c (List.mem_cons_self c cs)
    simp only [List.cons_append, takeUntil, hc, Bool.false_eq_true, if_false,
      List.cons.injEq, true_and]
    exact ih (fun d hd => h d (List.mem_cons_of_mem c hd))

theorem takeUntil_cons_true {p : Char → Bool} {c : Char} (l : List Char)
    (h : p c = true) : takeUntil p (c :: l) = [] := by
  simp [takeUntil, h]

theorem dropUntil_append_false {p : Char → Bool} {xs : List Char}
    (ys : List Char) (h : ∀ c ∈ xs, p c = false) :
    dropUntil p (xs ++ ys) = dropUntil p ys := by
  induction xs with
  | nil => rfl
  | cons c cs ih =>
    have hc := h c (List.mem_cons_self c cs)
    simp only [List.cons_append, dropUntil, hc, Bool.false_eq_true, if_false]
    exact ih (fun d hd => h d (List.mem_cons_of_mem c hd))

theorem dropUntil_cons_true {p : Char → Bool} {c : Char} (l : List Char)
    (h : p c = true) : dropUntil p (c :: l) = c :: l := by
  simp [dropUntil, h]

theorem mem_takeUntil {p : Char → Bool} {l : List Char} {c : Char}
    (h : c ∈ takeUntil p l) : p c = false ∧ c ∈ l := by
  induction l with
  | nil => simp [takeUntil] at h
  | cons d ds ih =>
    by_cases hd : p d = true
    · rw [takeUntil_cons_true ds hd] at h
      simp at h
    · have hd' : p d = false := Bool.eq_false_iff.mpr hd
      simp only [takeUntil, hd', Bool.false_eq_true, if_false] at h
      rcases List.mem_cons.mp h with h | h
      · subst h; exact ⟨hd', List.mem_cons_self c ds⟩
      · rcases ih h with ⟨h1, h2⟩
        exact ⟨h1, List.mem_cons_of_mem d h2⟩

theorem dropUntil_head_true {p : Char → Bool} {l t : List Char} {c : Char}
    (h : dropUntil p l = c :: t) : p c = true := by
  induction l with
  | nil => simp [dropUntil] at h
  | cons d ds ih =>
    by_cases hd : p d = true
    · rw [dropUntil_cons_true ds hd] at h
      rw [← (List.cons.injEq d ds c t).mp h |>.left]
      exact hd
    · have hd' : p d = false := Bool.eq_false_iff.mpr hd
      simp only [dropUntil, hd', Bool.false_eq_true, if_false] at h
      exact ih h

theorem splitOnChar_ne_nil (sep : Char) (l : List Char) :
    splitOnChar sep l ≠ [] := by
  cases l with
  | nil => simp [splitOnChar]
  | cons c cs =>
    by_cases hc : c = sep <;> simp [splitOnChar, hc]

theorem splitOnChar_cons_sep (sep : Char) (l : List Char) :
    splitOnChar sep (sep :: l) = [] :: splitOnChar sep l := by
  simp [splitOnChar]

theorem splitOnChar_append_cons {sep : Char} {xs : List Char}
    (ys : List Char) (h : ∀ c ∈ xs, c ≠ sep) :
    splitOnChar sep (xs ++ sep :: ys) = xs :: splitOnChar sep ys := by
  induction xs with
  | nil => simp [splitOnChar]
  | cons c cs ih =>
    have hc : c ≠ sep := h c (List.mem_cons_self c cs)
    have ih' := ih (fun d hd => h d (List.mem_cons_of_mem c hd))
    simp only [List.cons_append, splitOnChar, hc, if_false, List.append_eq]
    rw [ih']
    simp

theorem splitOnChar_no_sep {sep : Char} {l : List Char}
    (h : ∀ c ∈ l, c ≠ sep) : splitOnChar sep l = [l] := by
  induction l with
  | nil => rfl
  | cons c cs ih =>
    have hc : c ≠ sep := h c (List.mem_cons_self c cs)
    have ih' := ih (fun d hd => h d (List.mem_cons_of_mem c hd))
    simp [splitOnChar, hc, ih']

theorem mem_splitOnChar {sep : Char} {l piece : List Char}
    (h : piece ∈ splitOnChar sep l) : ∀ c ∈ piece, c ≠ sep ∧ c ∈ l := by
  induction l generalizing piece with
  | nil =>
    simp only [splitOnChar, List.mem_singleton] at h
    subst h
    intro c hc
    simp at hc
  | cons d ds ih =>
    by_cases hd : d = sep
    · subst hd
      rw [splitOnChar_cons_sep] at h
      rcases List.mem_cons.mp h with h | h
      · subst h; intro c hc; simp at hc
      · intro c hc
        rcases ih h c hc with ⟨h1, h2⟩
        exact ⟨h1, List.mem_cons_of_mem d h2⟩
    · rcases hr : splitOnChar sep ds with _ | ⟨rh, rt⟩
      · exact absurd hr (splitOnChar_ne_nil sep ds)
      · simp only [splitOnChar, hd, if_false, hr, List.headD_cons,
          List.tail_cons] at h
        rcases List.mem_cons.mp h with h | h
        · subst h
          intro c hc
          rcases List.mem_cons.mp hc with hc | hc
          · subst hc; exact ⟨hd, List.mem_cons_self c ds⟩
          · rcases ih (hr ▸ List.mem_cons_self rh rt) c hc with ⟨h1, h2⟩
            exact ⟨h1, List.mem_cons_of_mem d h2⟩
        · intro c hc
          rcases ih (hr ▸ List.mem_cons_of_mem rh h) c hc with ⟨h1, h2⟩
          exact ⟨h1, List.mem_cons_of_mem d h2⟩

/-! ## Lemmas about query-value encoding and decoding -/

theorem decode_escape (h1 h2 : Char) (E : List Char)
    (hh : (isHexDigitB h1 && isHexDigitB h2) = true) :
    decodeValue ('%' :: h1 :: h2 :: E)
      = Char.ofNat (16 * hexVal h1 + hexVal h2) :: decodeValue E := by
  show (if (isHexDigitB h1 && isHexDigitB h2) = true then
      Char.ofNat (16 * hexVal h1 + hexVal h2) :: decodeValue E
    else ('%' : Char) :: h1 :: h2 :: decodeValue E) = _
  rw [if_pos hh]

theorem decodeValue_cons_plus (E : List Char) :
    decodeValue ('+' :: E) = ' ' :: decodeValue E := by
  conv_lhs => unfold decodeValue
  rw [if_pos rfl]

theorem decodeValue_cons_other {c : Char} (E : List Char)
    (h1 : c ≠ '+') (h2 : c ≠ '%') :
    decodeValue (c :: E) = c :: decodeValue E := by
  conv_lhs => unfold decodeValue
  rw [if_neg h1, if_neg h2]

/-- Decoding undoes encoding on every string. -/
theorem decode_encode (l : List Char) : decodeValue (encodeValue l) = l := by
  induction l with
  | nil => rfl
  | cons c rest ih =>
    show decodeValue (encodeChar c ++ encodeValue rest) = c :: rest
    by_cases hsp : c = ' '
    · subst hsp
      show decodeValue ('+' :: encodeValue rest) = ' ' :: rest
      rw [decodeValue_cons_plus, ih]
    · by_cases hamp : c = '&'
      · subst hamp
        show decodeValue ('%' :: '2' :: '6' :: encodeValue rest) = '&' :: rest
        rw [decode_escape _ _ _ (by decide), ih,
          show Char.ofNat (16 * hexVal '2' + hexVal '6') = '&' from rfl]
      · by_cases heq : c = '='
        · subst heq
          show decodeValue ('%' :: '3' :: 'D' :: encodeValue rest)
            = '=' :: rest
          rw [decode_escape _ _ _ (by decide), ih,
            show Char.ofNat (16 * hexVal '3' + hexVal 'D') = '=' from rfl]
        · by_cases hhash : c = '#'
          · subst hhash
            show decodeValue ('%' :: '2' :: '3' :: encodeValue rest)
              = '#' :: rest
            rw [decode_escape _ _ _ (by decide), ih,
              show Char.ofNat (16 * hexVal '2' + hexVal '3') = '#' from rfl]
          · by_cases hq : c = '?'
            · subst hq
              show decodeValue ('%' :: '3' :: 'F' :: encodeValue rest)
                = '?' :: rest
              rw [decode_escape _ _ _ (by decide), ih,
                show Char.ofNat (16 * hexVal '3' + hexVal 'F') = '?' from rfl]
            · by_cases hplus : c = '+'
              · subst hplus
                show decodeValue ('%' :: '2' :: 'B' :: encodeValue rest)
                  = '+' :: rest
                rw [decode_escape _ _ _ (by decide), ih,
                  show Char.ofNat (16 * hexVal '2' + hexVal 'B') = '+' from rfl]
              · by_cases hpct : c = '%'
                · subst hpct
                  show decodeValue ('%' :: '2' :: '5' :: encodeValue rest)
                    = '%' :: rest
                  rw [decode_escape _ _ _ (by decide), ih,
                    show Char.ofNat (16 * hexVal '2' + hexVal '5') = '%'
                      from rfl]
                · have he : encodeChar c = [c] := by
                    simp [encodeChar, hsp, hamp, heq, hhash, hq, hplus, hpct]
                  rw [he, List.singleton_append,
                    decodeValue_cons_other _ hplus hpct, ih]

/-- Every character an encoded value contains is delimiter-safe. -/
theorem encodeChar_members (c : Char) :
    ∀ d ∈ encodeChar c, d ≠ '&' ∧ d ≠ '=' ∧ d ≠ '#' := by
  intro d hd
  by_cases hsp : c = ' '
  · subst hsp
    simp [encodeChar] at hd
    subst hd
    exact ⟨by decide, by decide, by decide⟩
  · by_cases hamp : c = '&'
    · subst hamp
      simp [encodeChar] at hd
      rcases hd with rfl | rfl | rfl <;> exact ⟨by decide, by decide, by decide⟩
    · by_cases heq : c = '='
      · subst heq
        simp [encodeChar] at hd
        rcases hd with rfl | rfl | rfl <;>
          exact ⟨by decide, by decide, by decide⟩
      · by_cases hhash : c = '#'
        · subst hhash
          simp [encodeChar] at hd
          rcases hd with rfl | rfl | rfl <;>
            exact ⟨by decide, by decide, by decide⟩
        · by_cases hq : c = '?'
          · subst hq
            simp [encodeChar] at hd
            rcases hd with rfl | rfl | rfl <;>
              exact ⟨by decide, by decide, by decide⟩
          · by_cases hplus : c = '+'
            · subst hplus
              simp [encodeChar] at hd
              rcases hd with rfl | rfl | rfl <;>
                exact ⟨by decide, by decide, by decide⟩
            · by_cases hpct : c = '%'
              · subst hpct
                simp [encodeChar] at hd
                rcases hd with rfl | rfl | rfl <;>
                  exact ⟨by decide, by decide, by decide⟩
              · have he : encodeChar c = [c] := by
                  simp [encodeChar, hsp, hamp, heq, hhash, hq, hplus, hpct]
                rw [he] at hd
                simp at hd
                subst hd
                exact ⟨hamp, heq, hhash⟩

theorem encodeValue_members {l : List Char} :
    ∀ d ∈ encodeValue l, d ≠ '&' ∧ d ≠ '=' ∧ d ≠ '#' := by
  induction l with
  | nil => intro d hd; simp [encodeValue] at hd
  | cons c cs ih =>
    intro d hd
    rcases List.mem_append.mp (by simpa [encodeValue] using hd) with hd | hd
    · exact encodeChar_members c d hd
    · exact ih d hd

/-! ## Roundtrip of the query-string serialization -/

theorem renderPiece_no_amp (kv : String × String) :
    ∀ c ∈ renderPiece kv, c ≠ '&' := by
  intro c hc
  unfold renderPiece at hc
  rcases List.mem_append.mp hc with hc | hc
  · exact (encodeValue_members c hc).1
  · rcases List.mem_cons.mp hc with hc | hc
    · subst hc; decide
    · exact (encodeValue_members c hc).1

theorem renderPiece_no_hash (kv : String × String) :
    ∀ c ∈ renderPiece kv, c ≠ '#' := by
  intro c hc
  unfold renderPiece at hc
  rcases List.mem_append.mp hc with hc | hc
  · exact (encodeValue_members c hc).2.2
  · rcases List.mem_cons.mp hc with hc | hc
    · subst hc; decide
    · exact (encodeValue_members c hc).2.2

theorem renderPiece_not_empty (kv : String × String) :
    (renderPiece kv).isEmpty = false := by
  unfold renderPiece
  cases h : encodeValue kv.fst.data <;> simp [h]

theorem mem_joinAmp {pieces : List (List Char)} {c : Char}
    (h : c ∈ joinAmp pieces) : c = '&' ∨ ∃ p ∈ pieces, c ∈ p := by
  induction pieces with
  | nil => simp [joinAmp] at h
  | cons x rest ih =>
    cases rest with
    | nil =>
      right
      exact ⟨x, List.mem_cons_self x [], by simpa [joinAmp] using h⟩
    | cons y t =>
      rw [show joinAmp (x :: y :: t) = x ++ '&' :: joinAmp (y :: t) from rfl]
        at h
      rcases List.mem_append.mp h with h | h
      · right; exact ⟨x, List.mem_cons_self x (y :: t), h⟩
      · rcases List.mem_cons.mp h with h | h
        · left; exact h
        · rcases ih h with h | ⟨p, hp, hcp⟩
          · left; exact h
          · right; exact ⟨p, List.mem_cons_of_mem x hp, hcp⟩

theorem splitOnChar_joinAmp {pieces : List (List Char)}
    (h : ∀ piece ∈ pieces, ∀ c ∈ piece, c ≠ '&') (hne : pieces ≠ []) :
    splitOnChar '&' (joinAmp pieces) = pieces := by
  induction pieces with
  | nil => exact absurd rfl hne
  | cons x rest ih =>
    cases rest with
    | nil =>
      show splitOnChar '&' x = [x]
      exact splitOnChar_no_sep (h x (List.mem_cons_self x []))
    | cons y t =>
      rw [show joinAmp (x :: y :: t) = x ++ '&' :: joinAmp (y :: t) from rfl]
      rw [splitOnChar_append_cons _ (h x (List.mem_cons_self x (y :: t)))]
      rw [ih (fun p hp => h p (List.mem_cons_of_mem x hp)) (by simp)]

theorem splitKV_renderPiece (kv : String × String) :
    splitKV (renderPiece kv) = kv := by
  obtain ⟨k, v⟩ := kv
  have hk : ∀ c ∈ encodeValue k.data,
      (fun c => decide (c = '=')) c = false := by
    intro c hc
    simp [(encodeValue_members c hc).2.1]
  unfold splitKV renderPiece
  rw [takeUntil_append_false _ hk, takeUntil_cons_true _ (by decide),
    dropUntil_append_false _ hk, dropUntil_cons_true _ (by decide)]
  simp [decode_encode, data_asString]

/-- Parsing a rendered query recovers exactly the parameter list. -/
theorem parseQuery_renderQuery (ps : List (String × String)) :
    parseQuery ((renderQuery ps).data) = ps := by
  cases ps with
  | nil => rfl
  | cons kv rest =>
    unfold parseQuery renderQuery
    rw [asString_data]
    rw [splitOnChar_joinAmp
      (by
        intro piece hp c hc
        rcases List.mem_map.mp hp with ⟨kv1, _, hkv1⟩
        exact renderPiece_no_amp kv1 c (hkv1 ▸ hc))
      (by simp)]
    rw [List.filter_eq_self.mpr
      (by
        intro piece hp
        rcases List.mem_map.mp hp with ⟨kv1, _, hkv1⟩
        rw [← hkv1]
        simp [renderPiece_not_empty kv1])]
    rw [List.map_map]
    have : (splitKV ∘ renderPiece) = id := by
      funext kv1
      simp [Function.comp, splitKV_renderPiece]
    rw [this, List.map_id]

/-! ## Parsing a serialized URL recovers its components -/

theorem isPrefixOf_append_self (xs ys : List Char) :
    (xs.isPrefixOf (xs ++ ys)) = true := by
  induction xs with
  | nil => simp [List.isPrefixOf]
  | cons x t ih => simp [List.isPrefixOf, ih]

theorem http_isPrefixOf_https_false (R : List Char) :
    ((("http://" : String).data).isPrefixOf
      (("https://" : String).data ++ R)) = false := by
  show (List.isPrefixOf ['h', 't', 't', 'p', ':', '/', '/']
    ('h' :: 't' :: 't' :: 'p' :: 's' :: ':' :: '/' :: '/' :: R)) = false
  simp [List.isPrefixOf]

theorem urlDelim_not_queryStart {c : Char} (h1 : isUrlDelim c = true)
    (h2 : isQueryStart c = false) : c = '/' := by
  simp only [isUrlDelim, Bool.or_eq_true, decide_eq_true_iff] at h1
  have h2' : ¬ (isQueryStart c = true) := by simp [h2]
  simp only [isQueryStart, Bool.or_eq_true, decide_eq_true_iff, not_or] at h2'
  rcases h1 with (h | h) | h
  · exact h
  · exact absurd h h2'.1
  · exact absurd h h2'.2

/-- Core lemma: feeding a decomposed host/path/query character stream to the
scheme-independent parser recovers the components. -/
theorem parseAfterScheme_decomposed (proto host path : String)
    (sfx : List Char) (Q : List (String × String))
    (hhost_ne : host.data ≠ [])
    (hhost : ∀ c ∈ host.data, isUrlDelim c = false)
    (hpath_head : ∃ r, path.data = '/' :: r)
    (hpath : ∀ c ∈ path.data, isQueryStart c = false)
    (hsfx : (sfx = [] ∧ Q = []) ∨
        (∃ qs, sfx = '?' :: qs ∧ (∀ c ∈ qs, isHashChar c = false) ∧
          parseQuery qs = Q)) :
    parseAfterScheme proto (host.data ++ (path.data ++ sfx))
      = some ⟨proto, host, path, Q⟩ := by
  obtain ⟨r, hr⟩ := hpath_head
  have hslash : isUrlDelim '/' = true := by decide
  have hqm : isQueryStart '?' = true := by decide
  have htake : takeUntil isUrlDelim (host.data ++ (path.data ++ sfx))
      = host.data := by
    rw [takeUntil_append_false _ hhost, hr, List.cons_append,
      takeUntil_cons_true _ hslash, List.append_nil]
  have hdrop : dropUntil isUrlDelim (host.data ++ (path.data ++ sfx))
      = path.data ++ sfx := by
    rw [dropUntil_append_false _ hhost, hr, List.cons_append,
      dropUntil_cons_true _ hslash, ← List.cons_append, ← hr]
  have htake2 : takeUntil isQueryStart (path.data ++ sfx) = path.data := by
    rw [takeUntil_append_false _ hpath]
    rcases hsfx with ⟨h1, _⟩ | ⟨qs, h1, _, _⟩
    · rw [h1]; simp [takeUntil]
    · rw [h1, takeUntil_cons_true _ hqm, List.append_nil]
  have hdrop2 : dropUntil isQueryStart (path.data ++ sfx) = sfx := by
    rw [dropUntil_append_false _ hpath]
    rcases hsfx with ⟨h1, _⟩ | ⟨qs, h1, _, _⟩
    · rw [h1]; rfl
    · rw [h1, dropUntil_cons_true _ hqm]
  have hhe : host.data.isEmpty = false := by
    cases hh : host.data with
    | nil => exact absurd hh hhost_ne
    | cons a b => rfl
  have hpe : path.data.isEmpty = false := by rw [hr]; rfl
  unfold parseAfterScheme
  simp only [htake, hdrop, htake2, hdrop2, hhe, Bool.false_eq_true, if_false,
    hpe]
  rcases hsfx with ⟨h1, h2⟩ | ⟨qs, h1, hq, h2⟩
  · subst h1; subst h2
    simp [data_asString]
    rfl
  · subst h1
    rw [← h2]
    simp only [takeUntil_of_all_false hq]
    simp [data_asString]

/-- Parsing the serialization of a well-formed http/https URL value recovers
exactly that value. -/
theorem parseUrl_urlToString (proto host path : String)
    (qs : List (String × String))
    (hproto : proto = "http:" ∨ proto = "https:")
    (hhost_ne : host.data ≠ [])
    (hhost : ∀ c ∈ host.data, isUrlDelim c = false)
    (hpath_head : ∃ r, path.data = '/' :: r)
    (hpath : ∀ c ∈ path.data, isQueryStart c = false) :
    parseUrl (urlToString ⟨proto, host, path, qs⟩)
      = some ⟨proto, host, path, qs⟩ := by
  have hsfx : ((if qs.isEmpty then ("" : String)
        else "?" ++ renderQuery qs).data = [] ∧ qs = []) ∨
      (∃ q0, (if qs.isEmpty then ("" : String)
          else "?" ++ renderQuery qs).data = '?' :: q0 ∧
        (∀ c ∈ q0, isHashChar c = false) ∧ parseQuery q0 = qs) := by
    cases hq : qs with
    | nil => left; exact ⟨rfl, rfl⟩
    | cons kv rest =>
      right
      refine ⟨((renderQuery (kv :: rest)).data), ?_, ?_, ?_⟩
      · have : ((kv :: rest).isEmpty) = false := rfl
        rw [this]
        simp only [Bool.false_eq_true, if_false, String.data_append]
        rfl
      · intro c hc
        rw [renderQuery, asString_data] at hc
        rcases mem_joinAmp hc with h | ⟨piece, hp, hcp⟩
        · subst h; decide
        · rcases List.mem_map.mp hp with ⟨kv1, _, hkv1⟩
          have := renderPiece_no_hash kv1 c (hkv1 ▸ hcp)
          simp [isHashChar, this]
      · exact parseQuery_renderQuery (kv :: rest)
  have hfull : (urlToString ⟨proto, host, path, qs⟩).data
      = proto.data ++ ("//" : String).data ++
        (host.data ++ (path.data ++
          (if qs.isEmpty then ("" : String)
            else "?" ++ renderQuery qs).data)) := by
    show (proto ++ "//" ++ host ++ path ++ _).data = _
    simp only [String.data_append, List.append_assoc]
  rcases hproto with hp | hp
  · subst hp
    have hpre : strStartsWith (urlToString ⟨"http:", host, path, qs⟩)
        "http://" = true := by
      unfold strStartsWith
      rw [hfull]
      exact isPrefixOf_append_self _ _
    unfold parseUrl
    rw [if_pos hpre, hfull]
    rw [show (("http:" : String).data ++ ("//" : String).data
        ++ (host.data ++ (path.data ++ _)))
      = (("http://" : String).data ++ (host.data ++ (path.data ++ _)))
      from rfl]
    rw [show (7 : Nat) = ("http://" : String).data.length from rfl,
      List.drop_left]
    exact parseAfterScheme_decomposed _ host path _ qs hhost_ne hhost
      hpath_head hpath hsfx
  · subst hp
    have hfull' : (urlToString ⟨"https:", host, path, qs⟩).data
        = ("https://" : String).data ++ (host.data ++ (path.data ++
            (if qs.isEmpty then ("" : String)
              else "?" ++ renderQuery qs).data)) := by
      rw [hfull]
      rfl
    have hnotpre : strStartsWith (urlToString ⟨"https:", host, path, qs⟩)
        "http://" = false := by
      unfold strStartsWith
      rw [hfull']
      exact http_isPrefixOf_https_false _
    have hpre : strStartsWith (urlToString ⟨"https:", host, path, qs⟩)
        "https://" = true := by
      unfold strStartsWith
      rw [hfull']
      exact isPrefixOf_append_self _ _
    unfold parseUrl
    rw [if_neg (by simp [hnotpre]), if_pos hpre, hfull']
    rw [show (8 : Nat) = ("https://" : String).data.length from rfl,
      List.drop_left]
    exact parseAfterScheme_decomposed _ host path _ qs hhost_ne hhost
      hpath_head hpath hsfx

/-- What holds of every successfully parsed URL. -/
theorem parseAfterScheme_inv {proto : String} {rest : List Char}
    {p : ParsedUrl} (h : parseAfterScheme proto rest = some p) :
    p.protocol = proto ∧ p.host.data ≠ [] ∧
    (∀ c ∈ p.host.data, isUrlDelim c = false) ∧
    (∃ r, p.pathname.data = '/' :: r) ∧
    (∀ c ∈ p.pathname.data, isQueryStart c = false) := by
  simp only [parseAfterScheme] at h
  by_cases hh : (takeUntil isUrlDelim rest).isEmpty = true
  · rw [if_pos hh] at h
    exact absurd h (by simp)
  · rw [if_neg hh] at h
    have hne : takeUntil isUrlDelim rest ≠ [] := by
      intro h0
      rw [h0] at hh
      exact hh rfl
    have hp := (Option.some.inj h).symm
    subst hp
    refine ⟨rfl, ?_, ?_, ?_, ?_⟩
    · dsimp only
      rw [asString_data]
      exact hne
    · dsimp only
      rw [asString_data]
      intro c hc
      exact (mem_takeUntil hc).1
    · dsimp only
      rw [asString_data]
      by_cases hpe :
          (takeUntil isQueryStart (dropUntil isUrlDelim rest)).isEmpty = true
      · rw [if_pos hpe]
        exact ⟨[], rfl⟩
      · rw [if_neg hpe]
        have hne2 :
            takeUntil isQueryStart (dropUntil isUrlDelim rest) ≠ [] := by
          intro h0
          rw [h0] at hpe
          exact hpe rfl
        cases hd : dropUntil isUrlDelim rest with
        | nil => exact absurd (by rw [hd]; rfl) hne2
        | cons c t =>
          have hcdelim : isUrlDelim c = true := dropUntil_head_true hd
          by_cases hcq : isQueryStart c = true
          · exact absurd (by rw [hd, takeUntil_cons_true _ hcq]) hne2
          · have hcq2 : isQueryStart c = false := Bool.eq_false_iff.mpr hcq
            have hc : c = '/' := urlDelim_not_queryStart hcdelim hcq2
            refine ⟨takeUntil isQueryStart t, ?_⟩
            simp only [takeUntil, hc]
            rw [if_neg (by decide)]
    · dsimp only
      rw [asString_data]
      by_cases hpe :
          (takeUntil isQueryStart (dropUntil isUrlDelim rest)).isEmpty = true
      · rw [if_pos hpe]
        intro c hc
        simp only [List.mem_singleton] at hc
        subst hc
        decide
      · rw [if_neg hpe]
        intro c hc
        exact (mem_takeUntil hc).1

theorem parseUrl_inv {s : String} {p : ParsedUrl} (h : parseUrl s = some p) :
    (p.protocol = "http:" ∨ p.protocol = "https:") ∧ p.host.data ≠ [] ∧
    (∀ c ∈ p.host.data, isUrlDelim c = false) ∧
    (∃ r, p.pathname.data = '/' :: r) ∧
    (∀ c ∈ p.pathname.data, isQueryStart c = false) := by
  unfold parseUrl at h
  by_cases h1 : strStartsWith s "http://" = true
  · rw [if_pos h1] at h
    have hi := parseAfterScheme_inv h
    exact ⟨Or.inl hi.1, hi.2⟩
  · rw [if_neg h1] at h
    by_cases h2 : strStartsWith s "https://" = true
    · rw [if_pos h2] at h
      have hi := parseAfterScheme_inv h
      exact ⟨Or.inr hi.1, hi.2⟩
    · rw [if_neg h2] at h
      exact absurd h (by simp)

/-! ## The canonical output URL of the query-URL normalizer -/

/-- The fixed parameter set of the canonical issues-list URL, in the order
the program sets it. -/
def canonicalParams (project q : String) : List (String × String) :=
  [("project", project), ("limit", "5"), ("sort", "freq"),
   ("statsPeriod", "14d"), ("query", q)]

/-- The query value the normalizer chooses: the input URL's own `query`
parameter when present and non-empty, the default otherwise. -/
def chosenQuery (u : ParsedUrl) : String :=
  match getSearchParam u "query" with
  | some q => if q = "" then defaultIssuesQuery else q
  | none => defaultIssuesQuery

/-- The canonical output URL for a parsed input with derived organization and
project. -/
def canonicalOut (p : ParsedUrl) (org proj : String) : String :=
  urlToString ⟨p.protocol, p.host,
    "/api/0/organizations/" ++ org ++ "/issues/",
    canonicalParams proj (chosenQuery p)⟩

/-! ## Facts about path segments and the derivations -/

theorem mem_pathSegments_facts {u : ParsedUrl} {seg : String}
    (h : seg ∈ pathSegments u) :
    seg ≠ "" ∧ ∀ c ∈ seg.data, c ≠ '/' ∧ c ∈ u.pathname.data := by
  unfold pathSegments at h
  rcases List.mem_filter.mp h with ⟨hmem, hne⟩
  rcases List.mem_map.mp hmem with ⟨piece, hpiece, hseg⟩
  constructor
  · simpa using hne
  · intro c hc
    have hc2 : c ∈ piece := by
      rw [← hseg, asString_data] at hc
      exact hc
    exact mem_splitOnChar hpiece c hc2

theorem deriveOrganization_mem {u : ParsedUrl} {org : String}
    (h : deriveOrganization u = some org) : org ∈ pathSegments u := by
  simp only [deriveOrganization] at h
  cases hidx : (pathSegments u).findIdx? (fun s => s == "organizations") with
  | none => rw [hidx] at h; simp at h
  | some i =>
    rw [hidx] at h
    exact List.getElem?_mem h

theorem deriveProject_ne_empty {u : ParsedUrl} {proj : String}
    (h : deriveProject u = some proj) : proj ≠ "" := by
  simp only [deriveProject] at h
  have hpath : ∀ x : String,
      (match (pathSegments u).findIdx? (fun s => s == "projects") with
        | some i => (pathSegments u)[i + 1]?
        | none => none) = some x → x ≠ "" := by
    intro x hx
    cases hidx : (pathSegments u).findIdx? (fun s => s == "projects") with
    | none => rw [hidx] at hx; simp at hx
    | some i =>
      rw [hidx] at hx
      exact (mem_pathSegments_facts (List.getElem?_mem hx)).1
  cases hq : getSearchParam u "project" with
  | none =>
    rw [hq] at h
    exact hpath proj h
  | some pv =>
    rw [hq] at h
    dsimp only at h
    by_cases hpv : pv = ""
    · rw [if_pos hpv] at h
      exact hpath proj h
    · rw [if_neg hpv] at h
      rw [← Option.some.inj h]
      exact hpv

theorem defaultIssuesQuery_ne_empty : defaultIssuesQuery ≠ "" := by decide

theorem chosenQuery_ne_empty (u : ParsedUrl) : chosenQuery u ≠ "" := by
  unfold chosenQuery
  cases hq : getSearchParam u "query" with
  | none => exact defaultIssuesQuery_ne_empty
  | some q =>
    dsimp only
    by_cases hq0 : q = ""
    · rw [if_pos hq0]; exact defaultIssuesQuery_ne_empty
    · rw [if_neg hq0]; exact hq0

/-! ## The canonical path and its segments -/

theorem canonicalPath_data_shape (org : String) :
    ("/api/0/organizations/" ++ org ++ "/issues/").data
      = '/' :: (("api" : String).data ++ '/' :: (("0" : String).data ++ '/' ::
        (("organizations" : String).data ++ '/' :: (org.data ++ '/' ::
          (("issues" : String).data ++ ['/']))))) := by
  simp only [String.data_append, List.append_assoc]
  rfl

theorem mem_canonicalPath_data {org : String} {c : Char}
    (h : c ∈ ("/api/0/organizations/" ++ org ++ "/issues/").data) :
    c ∈ ("/api/0/organizations/" : String).data ∨ c ∈ org.data ∨
      c ∈ ("/issues/" : String).data := by
  rw [String.data_append, String.data_append] at h
  rcases List.mem_append.mp h with h | h
  · rcases List.mem_append.mp h with h | h
    · left; exact h
    · right; left; exact h
  · right; right; exact h

theorem canonicalPath_head (org : String) :
    ∃ r, ("/api/0/organizations/" ++ org ++ "/issues/").data = '/' :: r :=
  ⟨_, canonicalPath_data_shape org⟩

theorem canonicalPath_no_queryStart {org : String}
    (horg : ∀ c ∈ org.data, isQueryStart c = false) :
    ∀ c ∈ ("/api/0/organizations/" ++ org ++ "/issues/").data,
      isQueryStart c = false := by
  have h1 : ∀ c ∈ ("/api/0/organizations/" : String).data,
      isQueryStart c = false := by decide
  have h2 : ∀ c ∈ ("/issues/" : String).data, isQueryStart c = false := by
    decide
  intro c hc
  rcases mem_canonicalPath_data hc with h | h | h
  · exact h1 c h
  · exact horg c h
  · exact h2 c h

theorem splitCanonicalPath (org : String)
    (hno : ∀ c ∈ org.data, c ≠ '/') :
    splitOnChar '/' (("/api/0/organizations/" ++ org ++ "/issues/").data)
      = [[], ("api" : String).data, ("0" : String).data,
         ("organizations" : String).data, org.data,
         ("issues" : String).data, []] := by
  rw [canonicalPath_data_shape, splitOnChar_cons_sep,
    splitOnChar_append_cons _ (by decide),
    splitOnChar_append_cons _ (by decide),
    splitOnChar_append_cons _ (by decide),
    splitOnChar_append_cons _ hno,
    splitOnChar_append_cons _ (by decide)]
  rfl

theorem pathSegments_canonical (proto host : String)
    (params : List (String × String)) (org : String)
    (hno : ∀ c ∈ org.data, c ≠ '/') (hne : org ≠ "") :
    pathSegments ⟨proto, host,
        "/api/0/organizations/" ++ org ++ "/issues/", params⟩
      = ["api", "0", "organizations", org, "issues"] := by
  have hmap : List.map (fun l => l.asString)
      [[], ("api" : String).data, ("0" : String).data,
       ("organizations" : String).data, org.data,
       ("issues" : String).data, []]
      = ["", "api", "0", "organizations", org, "issues", ""] := rfl
  have hfil : List.filter (fun s => decide (s ≠ ""))
      ["", "api", "0", "organizations", org, "issues", ""]
      = ["api", "0", "organizations", org, "issues"] := by
    simp only [List.filter_cons, List.filter_nil]
    rw [if_neg (by decide), if_pos (by decide), if_pos (by decide),
      if_pos (by decide), if_pos (by simp [hne]), if_pos (by decide),
      if_neg (by decide)]
  unfold pathSegments
  dsimp only
  rw [splitCanonicalPath org hno, hmap, hfil]

theorem deriveOrganization_canonical (proto host : String)
    (params : List (String × String)) (org : String)
    (hno : ∀ c ∈ org.data, c ≠ '/') (hne : org ≠ "") :
    deriveOrganization ⟨proto, host,
        "/api/0/organizations/" ++ org ++ "/issues/", params⟩ = some org := by
  unfold deriveOrganization
  rw [pathSegments_canonical proto host params org hno hne]
  simp [List.findIdx?]

theorem getSearchParam_canonical_project (proto host path proj q : String) :
    getSearchParam ⟨proto, host, path, canonicalParams proj q⟩ "project"
      = some proj := by
  simp [getSearchParam, canonicalParams, List.find?]

theorem getSearchParam_canonical_query (proto host path proj q : String) :
    getSearchParam ⟨proto, host, path, canonicalParams proj q⟩ "query"
      = some q := by
  simp [getSearchParam, canonicalParams, List.find?]

theorem deriveProject_canonical (proto host : String) (org proj q : String)
    (hproj : proj ≠ "") :
    deriveProject ⟨proto, host,
        "/api/0/organizations/" ++ org ++ "/issues/",
        canonicalParams proj q⟩ = some proj := by
  unfold deriveProject
  rw [getSearchParam_canonical_project]
  dsimp only
  rw [if_neg hproj]

theorem chosenQuery_canonical (proto host : String) (org proj q : String)
    (hq : q ≠ "") :
    chosenQuery ⟨proto, host,
        "/api/0/organizations/" ++ org ++ "/issues/",
        canonicalParams proj q⟩ = q := by
  unfold chosenQuery
  rw [getSearchParam_canonical_query]
  dsimp only
  rw [if_neg hq]

theorem setParam_chain (base : List (String × String)) (proj q : String)
    (hbase : base = []) :
    setParam (setParam (setParam (setParam (setParam base "project" proj)
      "limit" "5") "sort" "freq") "statsPeriod" "14d") "query" q
      = canonicalParams proj q := by
  subst hbase
  simp [setParam, canonicalParams]

/-! ## Characterization of `extractIssuesApiUrl` -/

/-- Forward direction: on any parsed input with derivable organization and
project, the normalizer returns exactly the canonical output URL. -/
theorem extractIssuesApiUrl_ok (url : String) (p : ParsedUrl)
    (org proj : String)
    (hp : parseUrl url = some p)
    (horg : deriveOrganization p = some org)
    (hproj : deriveProject p = some proj) :
    extractIssuesApiUrl url = .ok (canonicalOut p org proj) := by
  obtain ⟨hproto, hhost_ne, hhost, hpath_head, hpath⟩ := parseUrl_inv hp
  obtain ⟨horg_ne, horg_chars⟩ :=
    mem_pathSegments_facts (deriveOrganization_mem horg)
  have horg_noqs : ∀ c ∈ org.data, isQueryStart c = false := fun c hc =>
    hpath c (horg_chars c hc).2
  have hne : url ≠ "" := by
    intro h0
    rw [h0, show parseUrl "" = none from rfl] at hp
    cases hp
  have happ : p.protocol ++ "//" ++ p.host ++ "/api/0/organizations/"
        ++ org ++ "/issues/"
      = urlToString ⟨p.protocol, p.host,
          "/api/0/organizations/" ++ org ++ "/issues/", []⟩ := by
    simp [urlToString, String.append_assoc]
  have hparse2 : parseUrl (p.protocol ++ "//" ++ p.host
        ++ "/api/0/organizations/" ++ org ++ "/issues/")
      = some ⟨p.protocol, p.host,
          "/api/0/organizations/" ++ org ++ "/issues/", []⟩ := by
    rw [happ]
    exact parseUrl_urlToString _ _ _ [] hproto hhost_ne hhost
      (canonicalPath_head org) (canonicalPath_no_queryStart horg_noqs)
  unfold extractIssuesApiUrl
  rw [if_neg hne, hp]
  dsimp only
  rw [horg]
  dsimp only
  rw [hproj]
  dsimp only
  rw [hparse2]
  dsimp only
  cases hq : getSearchParam p "query" with
  | none =>
    rw [setParam_chain _ proj defaultIssuesQuery rfl]
    unfold canonicalOut chosenQuery
    rw [hq]
  | some q =>
    dsimp only
    by_cases hq0 : q = ""
    · rw [if_pos hq0, setParam_chain _ proj defaultIssuesQuery rfl]
      unfold canonicalOut chosenQuery
      rw [hq]
      dsimp only
      rw [if_pos hq0]
    · rw [if_neg hq0, setParam_chain _ proj q rfl]
      unfold canonicalOut chosenQuery
      rw [hq]
      dsimp only
      rw [if_neg hq0]

/-- Backward direction: every success of the normalizer comes from a parsed
input with derivable organization and project, and the output is the
canonical URL. -/
theorem extractIssuesApiUrl_ok_inv {url out : String}
    (h : extractIssuesApiUrl url = .ok out) :
    ∃ p org proj, parseUrl url = some p ∧ deriveOrganization p = some org ∧
      deriveProject p = some proj ∧ out = canonicalOut p org proj := by
  have h0 := h
  unfold extractIssuesApiUrl at h
  by_cases hne : url = ""
  · rw [if_pos hne] at h
    cases h
  · rw [if_neg hne] at h
    cases hp : parseUrl url with
    | none => rw [hp] at h; simp at h
    | some p =>
      rw [hp] at h
      dsimp only at h
      cases horg : deriveOrganization p with
      | none => rw [horg] at h; simp at h
      | some org =>
        rw [horg] at h
        dsimp only at h
        cases hproj : deriveProject p with
        | none => rw [hproj] at h; simp at h
        | some proj =>
          refine ⟨p, org, proj, rfl, horg, hproj, ?_⟩
          rw [extractIssuesApiUrl_ok url p org proj hp horg hproj] at h0
          exact (Except.ok.inj h0).symm

/-- Parsing the canonical output URL recovers its components. -/
theorem parseUrl_canonicalOut (p : ParsedUrl) (org proj : String)
    (hproto : p.protocol = "http:" ∨ p.protocol = "https:")
    (hhost_ne : p.host.data ≠ [])
    (hhost : ∀ c ∈ p.host.data, isUrlDelim c = false)
    (horg_noqs : ∀ c ∈ org.data, isQueryStart c = false) :
    parseUrl (canonicalOut p org proj)
      = some ⟨p.protocol, p.host,
          "/api/0/organizations/" ++ org ++ "/issues/",
          canonicalParams proj (chosenQuery p)⟩ := by
  unfold canonicalOut
  exact parseUrl_urlToString _ _ _ _ hproto hhost_ne hhost
    (canonicalPath_head org) (canonicalPath_no_queryStart horg_noqs)

theorem getSearchParam_canonical_limit (proto host path proj q : String) :
    getSearchParam ⟨proto, host, path, canonicalParams proj q⟩ "limit"
      = some "5" := by
  simp [getSearchParam, canonicalParams, List.find?]

theorem getSearchParam_canonical_sort (proto host path proj q : String) :
    getSearchParam ⟨proto, host, path, canonicalParams proj q⟩ "sort"
      = some "freq" := by
  simp [getSearchParam, canonicalParams, List.find?]

theorem getSearchParam_canonical_statsPeriod (proto host path proj q : String) :
    getSearchParam ⟨proto, host, path, canonicalParams proj q⟩ "statsPeriod"
      = some "14d" := by
  simp [getSearchParam, canonicalParams, List.find?]

/-- The query parameter a URL string exposes under the platform parser. -/
def queryParamOf (s : String) (name : String) : Option String :=
  match parseUrl s with
  | some u => getSearchParam u name
  | none => none

/-! ## Claims C3, C4 and C10 -/

/-- C3 as stated is false on one point: when the input URL carries a `query`
parameter that is present but EMPTY, the output query is the default string,
not the verbatim (empty) copy, because the source tests the parameter with
JavaScript truthiness. -/
theorem c3_counterexample :
    queryParamOf "https://h/organizations/org/?project=1&query=" "query"
      = some "" ∧
    extractIssuesApiUrl "https://h/organizations/org/?project=1&query="
      = .ok "https://h/api/0/organizations/org/issues/?project=1&limit=5&sort=freq&statsPeriod=14d&query=error.unhandled:true+is:unresolved" ∧
    queryParamOf "https://h/api/0/organizations/org/issues/?project=1&limit=5&sort=freq&statsPeriod=14d&query=error.unhandled:true+is:unresolved"
        "query"
      = some defaultIssuesQuery ∧
    (some defaultIssuesQuery : Option String) ≠ some "" := by
  refine ⟨rfl, rfl, rfl, by decide⟩

/-- C3 amended: whenever the normalizer succeeds, the output URL parses to
`{scheme}://{host}/api/0/organizations/{organization}/issues/` (scheme and
host of the input, organization as derived) carrying exactly the five query
parameters `project` (the derived project), `limit=5`, `sort=freq`,
`statsPeriod=14d` and `query`, where `query` is the input URL's own `query`
parameter when present and NON-EMPTY and the literal
`error.unhandled:true is:unresolved` otherwise. -/
theorem c3_amended_canonical_output (url out : String)
    (h : extractIssuesApiUrl url = .ok out) :
    ∃ p org proj, parseUrl url = some p ∧ deriveOrganization p = some org ∧
      deriveProject p = some proj ∧
      parseUrl out = some ⟨p.protocol, p.host,
        "/api/0/organizations/" ++ org ++ "/issues/",
        canonicalParams proj (chosenQuery p)⟩ := by
  obtain ⟨p, org, proj, hp, horg, hproj, hout⟩ := extractIssuesApiUrl_ok_inv h
  obtain ⟨hproto, hhost_ne, hhost, _, hpath⟩ := parseUrl_inv hp
  obtain ⟨_, horg_chars⟩ :=
    mem_pathSegments_facts (deriveOrganization_mem horg)
  have horg_noqs : ∀ c ∈ org.data, isQueryStart c = false := fun c hc =>
    hpath c (horg_chars c hc).2
  subst hout
  exact ⟨p, org, proj, hp, horg, hproj,
    parseUrl_canonicalOut p org proj hproto hhost_ne hhost horg_noqs⟩

/-- Witness for amended C3 on a concrete API-style input with its own query. -/
theorem c3_amended_canonical_output_witness :
    extractIssuesApiUrl "https://h/organizations/o/?project=42&query=foo"
      = .ok "https://h/api/0/organizations/o/issues/?project=42&limit=5&sort=freq&statsPeriod=14d&query=foo" ∧
    (∃ p org proj,
      parseUrl "https://h/organizations/o/?project=42&query=foo" = some p ∧
      deriveOrganization p = some org ∧ deriveProject p = some proj ∧
      parseUrl "https://h/api/0/organizations/o/issues/?project=42&limit=5&sort=freq&statsPeriod=14d&query=foo"
        = some ⟨p.protocol, p.host,
            "/api/0/organizations/" ++ org ++ "/issues/",
            canonicalParams proj (chosenQuery p)⟩) :=
  ⟨rfl, c3_amended_canonical_output
    "https://h/organizations/o/?project=42&query=foo"
    "https://h/api/0/organizations/o/issues/?project=42&limit=5&sort=freq&statsPeriod=14d&query=foo"
    rfl⟩

/-- C4: the query-URL normalizer is idempotent — feeding a successful output
back in succeeds, re-derives the same organization and project, and returns
the same URL. -/
theorem c4_extractIssuesApiUrl_idempotent (url out : String)
    (h : extractIssuesApiUrl url = .ok out) :
    extractIssuesApiUrl out = .ok out ∧
    ∃ p p2, parseUrl url = some p ∧ parseUrl out = some p2 ∧
      deriveOrganization p2 = deriveOrganization p ∧
      deriveProject p2 = deriveProject p := by
  obtain ⟨p, org, proj, hp, horg, hproj, hout⟩ := extractIssuesApiUrl_ok_inv h
  obtain ⟨hproto, hhost_ne, hhost, _, hpath⟩ := parseUrl_inv hp
  obtain ⟨horg_ne, horg_chars⟩ :=
    mem_pathSegments_facts (deriveOrganization_mem horg)
  have horg_noslash : ∀ c ∈ org.data, c ≠ '/' := fun c hc =>
    (horg_chars c hc).1
  have horg_noqs : ∀ c ∈ org.data, isQueryStart c = false := fun c hc =>
    hpath c (horg_chars c hc).2
  have hproj_ne := deriveProject_ne_empty hproj
  have hparse2 : parseUrl out = some ⟨p.protocol, p.host,
      "/api/0/organizations/" ++ org ++ "/issues/",
      canonicalParams proj (chosenQuery p)⟩ := by
    rw [hout]
    exact parseUrl_canonicalOut p org proj hproto hhost_ne hhost horg_noqs
  have horg2 : deriveOrganization ⟨p.protocol, p.host,
      "/api/0/organizations/" ++ org ++ "/issues/",
      canonicalParams proj (chosenQuery p)⟩ = some org :=
    deriveOrganization_canonical _ _ _ org horg_noslash horg_ne
  have hproj2 : deriveProject ⟨p.protocol, p.host,
      "/api/0/organizations/" ++ org ++ "/issues/",
      canonicalParams proj (chosenQuery p)⟩ = some proj :=
    deriveProject_canonical _ _ org proj _ hproj_ne
  have hq2 : chosenQuery ⟨p.protocol, p.host,
      "/api/0/organizations/" ++ org ++ "/issues/",
      canonicalParams proj (chosenQuery p)⟩ = chosenQuery p :=
    chosenQuery_canonical _ _ org proj _ (chosenQuery_ne_empty p)
  have hext2 : extractIssuesApiUrl out
      = .ok (canonicalOut ⟨p.protocol, p.host,
          "/api/0/organizations/" ++ org ++ "/issues/",
          canonicalParams proj (chosenQuery p)⟩ org proj) :=
    extractIssuesApiUrl_ok out _ org proj hparse2 horg2 hproj2
  have hsame : canonicalOut ⟨p.protocol, p.host,
      "/api/0/organizations/" ++ org ++ "/issues/",
      canonicalParams proj (chosenQuery p)⟩ org proj = out := by
    rw [hout]
    unfold canonicalOut
    rw [hq2]
  refine ⟨by rw [hext2, hsame], p, _, hp, hparse2, by rw [horg2, horg],
    by rw [hproj2, hproj]⟩

/-- Witness for C4 on a concrete web-style input. -/
theorem c4_extractIssuesApiUrl_idempotent_witness :
    extractIssuesApiUrl "https://h/organizations/o/projects/p5/"
      = .ok "https://h/api/0/organizations/o/issues/?project=p5&limit=5&sort=freq&statsPeriod=14d&query=error.unhandled:true+is:unresolved" ∧
    (extractIssuesApiUrl "https://h/api/0/organizations/o/issues/?project=p5&limit=5&sort=freq&statsPeriod=14d&query=error.unhandled:true+is:unresolved"
      = .ok "https://h/api/0/organizations/o/issues/?project=p5&limit=5&sort=freq&statsPeriod=14d&query=error.unhandled:true+is:unresolved" ∧
    ∃ p p2,
      parseUrl "https://h/organizations/o/projects/p5/" = some p ∧
      parseUrl "https://h/api/0/organizations/o/issues/?project=p5&limit=5&sort=freq&statsPeriod=14d&query=error.unhandled:true+is:unresolved"
        = some p2 ∧
      deriveOrganization p2 = deriveOrganization p ∧
      deriveProject p2 = deriveProject p) :=
  ⟨rfl, c4_extractIssuesApiUrl_idempotent
    "https://h/organizations/o/projects/p5/"
    "https://h/api/0/organizations/o/issues/?project=p5&limit=5&sort=freq&statsPeriod=14d&query=error.unhandled:true+is:unresolved"
    rfl⟩

/-- C10: the canonical output never propagates input query parameters other
than `project` and `query` — the output carries exactly the five keys
`project`, `limit`, `sort`, `statsPeriod`, `query` in this order, with
`limit=5`, `sort=freq` and `statsPeriod=14d` regardless of any `limit`,
`sort`, `statsPeriod` or other parameters on the input. -/
theorem c10_no_foreign_params (url out : String)
    (h : extractIssuesApiUrl url = .ok out) :
    ∃ p2, parseUrl out = some p2 ∧
      p2.searchParams.map Prod.fst
        = ["project", "limit", "sort", "statsPeriod", "query"] ∧
      getSearchParam p2 "limit" = some "5" ∧
      getSearchParam p2 "sort" = some "freq" ∧
      getSearchParam p2 "statsPeriod" = some "14d" := by
  obtain ⟨p, org, proj, hp, horg, hproj, hout⟩ := extractIssuesApiUrl_ok_inv h
  obtain ⟨hproto, hhost_ne, hhost, _, hpath⟩ := parseUrl_inv hp
  obtain ⟨_, horg_chars⟩ :=
    mem_pathSegments_facts (deriveOrganization_mem horg)
  have horg_noqs : ∀ c ∈ org.data, isQueryStart c = false := fun c hc =>
    hpath c (horg_chars c hc).2
  subst hout
  refine ⟨_, parseUrl_canonicalOut p org proj hproto hhost_ne hhost horg_noqs,
    rfl, getSearchParam_canonical_limit _ _ _ _ _,
    getSearchParam_canonical_sort _ _ _ _ _,
    getSearchParam_canonical_statsPeriod _ _ _ _ _⟩

/-- Witness for C10 on an input that carries its own conflicting `limit`,
`sort` and `statsPeriod` parameters plus an extra one. -/
theorem c10_no_foreign_params_witness :
    extractIssuesApiUrl
        "https://h/organizations/o/?project=1&limit=99&sort=date&statsPeriod=90d&extra=x"
      = .ok "https://h/api/0/organizations/o/issues/?project=1&limit=5&sort=freq&statsPeriod=14d&query=error.unhandled:true+is:unresolved" ∧
    (∃ p2,
      parseUrl "https://h/api/0/organizations/o/issues/?project=1&limit=5&sort=freq&statsPeriod=14d&query=error.unhandled:true+is:unresolved"
        = some p2 ∧
      p2.searchParams.map Prod.fst
        = ["project", "limit", "sort", "statsPeriod", "query"] ∧
      getSearchParam p2 "limit" = some "5" ∧
      getSearchParam p2 "sort" = some "freq" ∧
      getSearchParam p2 "statsPeriod" = some "14d") :=
  ⟨rfl, c10_no_foreign_params
    "https://h/organizations/o/?project=1&limit=99&sort=date&statsPeriod=90d&extra=x"
    "https://h/api/0/organizations/o/issues/?project=1&limit=5&sort=freq&statsPeriod=14d&query=error.unhandled:true+is:unresolved"
    rfl⟩

end McpSentry
